import Mathlib

/-!
Verification development for the kojirou download pipeline.

Embedded source files:
* `cmd/formats/download/root.go` — the concurrent, bounded, cancelable
  fetch pipeline (`MangadexPages`, `MangadexCovers`, `chaptersToPaths`,
  `pathsToImages`, `getImage`).
* `mangadex/unstructured.go` — the data records (`PathItem`, `ImageItem`,
  `ChapterInfo`) and `PathItem.WithImage`.

The embedding has two layers:

1. A direct functional translation of the sequential pieces:
   `getImage` (the recursive fetch+decode with the broken-image retry hack)
   and the result-collection loop of `MangadexCovers`.

2. An operational small-step model of the `MangadexPages` pipeline.
   Goroutine/channel nondeterminism is resolved by an explicit schedule
   (a list of `Choice` values); `run` folds the deterministic `step`
   function over the schedule, so every reachable state of the pipeline
   is `run net chapterList sched` for some schedule `sched`.
   Network effects are supplied by a `Net` oracle record.

Modelling conventions, justified against the Go runtime semantics:
* machine integers only occur as identifiers and counters, so `Nat` is used;
* `image.Image` is an interface value that may be `nil`: `Option Bitmap`;
* unbuffered channel communication is a rendezvous: a send step requires a
  ready receiver and transfers the value in that one step;
* `errgroup.Group` with `SetLimit(n+1)` (one slot is held by the dispatcher
  loop itself) admits at most `n` simultaneously active workers; `Go` blocks
  while the pool is full, modelled by the dispatcher `holding` a value until
  a spawn step is enabled;
* `errgroup` records only the first non-nil error returned by any of its
  functions (`errOnce`);
* `context.WithCancel` cancellation is level-triggered and permanent within
  a run: one Boolean `cancelFlag`; a select with a ready `ctx.Done()` branch
  may still take the other ready branch (Go chooses uniformly among ready
  cases), so both choices are schedule steps;
* an HTTP request issued with an already-canceled context fails before any
  network I/O takes place (`net/http` documents that the request is canceled
  when its context is done), so such a call reports an error without
  counting as a started network request.
-/

set_option autoImplicit false

namespace Kojirou

/-- Stand-in for `md.Identifier`; its structure is irrelevant to the pipeline,
which only copies and compares identifiers. -/
abbrev MdId := Nat

/-- Stand-in for a decoded `image.Image` payload; the pipeline never inspects
the bitmap. A Go `image.Image` interface value may be `nil`, which the model
writes as `none : Option Bitmap`. -/
abbrev Bitmap := Nat

/-- The fields of `mangadex.ChapterInfo` used by the pipeline
(`mangadex/unstructured.go`); the display-only fields (`Title`, `Views`,
`Region`, `GroupNames`, `Hash`) are omitted. -/
structure ChapterInfo where
  Identifier : MdId
  VolumeIdentifier : MdId
  ID : Nat
deriving DecidableEq, Repr

/-- The part of `mangadex.Chapter` consumed by `chaptersToPaths`: only
`chapter.Info` is read. -/
structure Chapter where
  Info : ChapterInfo
deriving DecidableEq, Repr

/-- `mangadex.PathItem` (`mangadex/unstructured.go`): a remote URL plus the
hidden provenance fields. -/
structure PathItem where
  URL : String
  imageID : Nat
  chapterID : MdId
  volumeID : MdId
deriving DecidableEq, Repr

/-- `mangadex.ImageItem` (`mangadex/unstructured.go`): a decoded bitmap plus
the hidden provenance fields. -/
structure ImageItem where
  Image : Option Bitmap
  imageID : Nat
  chapterID : MdId
  volumeID : MdId
deriving DecidableEq, Repr

/-- `PathItem.WithImage` (`mangadex/unstructured.go` lines 27-34): pairs the
decoded image with the provenance fields copied from the path item. -/
def PathItem.WithImage (i : PathItem) (img : Option Bitmap) : ImageItem :=
  { Image := img
    chapterID := i.chapterID
    volumeID := i.volumeID
    imageID := i.imageID }

/-! ### getImage (`root.go` lines 206-230), functional translation

One call of `getImage` performs: build the request, execute it, check the
status code, decode the body, and — the broken-image hack — recurse with
`try+1` whenever the decoded image is `nil` and `try <= 10`.  The outcome of
the HTTP+decode attempt number `t` is supplied by an oracle `fetch t`. -/

/-- Observable outcome of one fetch+decode attempt inside `getImage`:
request construction failure, transport failure of `client.Do`, or a
response with its status code and the `image.Decode` result (Go's
`image.Decode` returns an image value and an error value; the broken-image
quirk is `img = none` together with `decodeErr = none`). -/
inductive Attempt where
  | prepareErr
  | doErr
  | response (statusCode : Nat) (img : Option Bitmap) (decodeErr : Option Nat)
deriving DecidableEq, Repr

/-- Errors produced by `getImage`, mirroring the `fmt.Errorf` wrappers in
`root.go` lines 209, 213, 218, 227. `ctxCanceled` is the transport failure
reported by `client.Do` when the request context is already canceled. -/
inductive GetImageErr where
  | prepare
  | doFail
  | status (code : Nat)
  | decode (e : Nat)
  | ctxCanceled
deriving DecidableEq, Repr

/-- `getImage` (`root.go` lines 206-230). Returns `Except.ok img` for the
`return img, nil` path — note `img` may be `none` — and `Except.error` for
each of the wrapped error returns. -/
def getImage (fetch : Nat → Attempt) (t : Nat) : Except GetImageErr (Option Bitmap) :=
  match fetch t with
  | .prepareErr => .error .prepare
  | .doErr => .error .doFail
  | .response statusCode img decodeErr =>
    if statusCode ≠ 200 then
      .error (.status statusCode)
    else if img = none ∧ t ≤ 10 then
      getImage fetch (t + 1)
    else
      match decodeErr with
      | some e => .error (.decode e)
      | none => .ok img
termination_by 11 - t
decreasing_by omega

/-- Number of fetch+decode attempts (calls of `getImage`, each performing one
HTTP request) made by `getImage fetch t`; same recursion structure as
`getImage`. -/
def getImageAttempts (fetch : Nat → Attempt) (t : Nat) : Nat :=
  match fetch t with
  | .prepareErr => 1
  | .doErr => 1
  | .response statusCode img _ =>
    if statusCode ≠ 200 then
      1
    else if img = none ∧ t ≤ 10 then
      1 + getImageAttempts fetch (t + 1)
    else
      1
termination_by 11 - t
decreasing_by omega

/-- The persistent quirk oracle: every attempt yields HTTP 200 whose body
decodes to a null image with a nil decode error. -/
def quirkFetch : Nat → Attempt := fun _ => .response 200 none none

/-! ### MangadexCovers result collection (`root.go` lines 46-77)

`MangadexCovers` allocates `results := make(md.ImageList, len(covers))` — a
slice of `len(covers)` zero-valued `ImageItem`s — and then appends every
image received from the `coverImages` channel.  The collection loop is
translated directly; the stream of arrived images is a parameter, since
their arrival order is scheduling-dependent and irrelevant to the claims. -/

/-- The zero value of `mangadex.ImageItem`: nil interface image, zero
identifiers. This is what `make(md.ImageList, n)` fills the slice with. -/
def zeroImageItem : ImageItem :=
  { Image := none, imageID := 0, chapterID := 0, volumeID := 0 }

/-- The collection loop of `MangadexCovers` (`root.go` lines 67-70):
`for coverImage := range coverImages { p.Add(1); results = append(results, coverImage) }`. -/
def coversCollect (results : List ImageItem) : List ImageItem → List ImageItem
  | [] => results
  | coverImage :: rest => coversCollect (results ++ [coverImage]) rest

/-- The `results` value returned by a successful `MangadexCovers` run
(`root.go` lines 66-76): the loop above started from
`make(md.ImageList, len(covers))`, fed with the images that arrived on the
`coverImages` channel. -/
def MangadexCoversResults (covers : List PathItem) (arrived : List ImageItem) : List ImageItem :=
  coversCollect (List.replicate covers.length zeroImageItem) arrived

/-! ### Operational model of the `MangadexPages` pipeline (`root.go` 79-204)

The pipeline is: a feeder goroutine sending chapters, `chaptersToPaths`
(dispatcher + up to `maxJobsChapter` workers), an unbuffered `paths` channel,
`pathsToImages` (dispatcher + up to `maxJobsImage` workers), an unbuffered
`images` channel drained by the result-collection loop, and an outer
errgroup collecting the two stage `Wait` results. -/

/-- `maxJobsChapter` (`root.go` line 20). -/
def maxJobsChapter : Nat := 8

/-- `maxJobsImage` (`root.go` line 21). -/
def maxJobsImage : Nat := 16

/-- Network oracle: outcomes of the two kinds of remote calls made with a
live (not yet canceled) context. `fetchPaths` is
`mangadexClient.FetchPaths(ctx, &chapter)` (`root.go` line 133);
`fetchImage` is the overall result of `getImage(httpClient, ctx, path.URL, 0)`
(`root.go` line 181). -/
structure Net where
  fetchPaths : Chapter → Except Nat (List PathItem)
  fetchImage : PathItem → Except GetImageErr (Option Bitmap)

/-- Errors flowing through the errgroups, mirroring the `fmt.Errorf` calls:
`canceled` is `fmt.Errorf("canceled")` (lines 127, 142, 175, 188);
`chapterPaths` is `fmt.Errorf("chapter %v: paths: %w", ...)` (line 136),
where `ctxCanceled` stands for the error `FetchPaths` reports when its
context is already canceled; `image` is
`fmt.Errorf("chapter %v: image %v: %w", ...)` (line 184). -/
inductive Err where
  | canceled
  | chapterPaths (chapter : MdId) (ctxCanceled : Bool) (inner : Nat)
  | image (chapter : MdId) (img : Nat) (inner : GetImageErr)
deriving DecidableEq, Repr

/-- `errgroup` error recording: only the first non-nil error is kept
(`errOnce.Do` inside `golang.org/x/sync/errgroup`). -/
def errOnce : Option Err → Err → Option Err
  | some e, _ => some e
  | none, e => some e

/-- State of a stage dispatcher loop: `running` means sitting in its
`select`, `holding a` means it received `a` and is blocked in `eg.Go`
waiting for a worker slot, `done` means the loop has returned. -/
inductive DispSt (α : Type) where
  | running
  | holding (a : α)
  | done
deriving DecidableEq, Repr

/-- State of one `chaptersToPaths` worker (`root.go` lines 132-149):
fetching the chapter's path manifest, emitting the fetched paths one by one,
or holding a computed error value whose `defer cancel()` has run but whose
error has not yet been recorded by the errgroup. -/
inductive ChWorker where
  | fetching (c : Chapter)
  | emitting (c : Chapter) (pending : List PathItem)
  | failed (e : Err)
deriving DecidableEq, Repr

/-- State of one `pathsToImages` worker (`root.go` lines 180-193). -/
inductive ImgWorker where
  | fetching (p : PathItem)
  | emitting (p : PathItem) (img : Option Bitmap)
  | failed (e : Err)
deriving DecidableEq, Repr

/-- Global state of one `MangadexPages` run. Worker pools are lists of
`Option` slots: a finished worker's slot becomes `none` (list length only
grows, active workers are the `some` entries). Progress-reporter calls are
counted per call site: `chDiscovered`/`pageDiscovered` are the `p.Increase(1)`
calls (lines 89 and 144), `chCompleted`/`imgCompleted` the `p.Add(1)` calls
(lines 138 and 102). -/
structure PipeState where
  chaptersPending : List Chapter
  chDisp : DispSt Chapter
  chWorkers : List (Option ChWorker)
  chErr : Option Err
  chDelivered : Bool
  imgDisp : DispSt PathItem
  imgWorkers : List (Option ImgWorker)
  imgErr : Option Err
  imgDelivered : Bool
  outerErr : Option Err
  cancelFlag : Bool
  results : List ImageItem
  chDiscovered : Nat
  pageDiscovered : Nat
  chCompleted : Nat
  imgCompleted : Nat
deriving DecidableEq, Repr

/-- Number of live workers in a pool. -/
def countActive {α : Type} (ws : List (Option α)) : Nat :=
  (ws.map fun o => if o.isSome then 1 else 0).sum

/-- The `chaptersToPaths` errgroup has finished: its dispatcher returned and
every launched worker returned. At this point `eg.Wait()` in the
`go func() { eg.Wait(); close(ch) }()` goroutine (lines 154-157) returns and
the `paths` channel is closed. -/
def chGroupDone (s : PipeState) : Prop :=
  s.chDisp = DispSt.done ∧ countActive s.chWorkers = 0

/-- The `pathsToImages` errgroup has finished; the `images` channel is then
closed (lines 198-201) and the result-collection loop of `MangadexPages`
terminates. -/
def imgGroupDone (s : PipeState) : Prop :=
  s.imgDisp = DispSt.done ∧ countActive s.imgWorkers = 0

instance (s : PipeState) : Decidable (chGroupDone s) := by
  unfold chGroupDone; infer_instance

instance (s : PipeState) : Decidable (imgGroupDone s) := by
  unfold imgGroupDone; infer_instance

/-- Scheduler choices, one per atomic transition of some goroutine.
`i` indexes a slot of the relevant worker pool. -/
inductive Choice where
  | chDispCancel
  | chDispRecv
  | chSpawn
  | chFetch (i : Nat)
  | chEmit (i : Nat)
  | chEmitCancel (i : Nat)
  | chFail (i : Nat)
  | chDeliver
  | imgDispCancel
  | imgDispRecv
  | imgSpawn
  | imgFetch (i : Nat)
  | imgEmit (i : Nat)
  | imgEmitCancel (i : Nat)
  | imgFail (i : Nat)
  | imgDeliver
deriving DecidableEq, Repr

/-- One atomic transition of the pipeline; a `Choice` that is not enabled in
the current state leaves the state unchanged.

* `chDispCancel`: the `chaptersToPaths` dispatcher takes its `<-ctx.Done()`
  branch and returns `fmt.Errorf("canceled")` (lines 126-127).
* `chDispRecv`: the dispatcher receives from the `chapters` channel
  (rendezvous with the feeder goroutine, which then runs `p.Increase(1)`,
  lines 86-92 and 128); on a closed channel (`!ok`, all chapters consumed)
  it returns nil (lines 129-131).
* `chSpawn`: the dispatcher's blocked `eg.Go` (line 132) acquires a worker
  slot; the limit is `maxJobsChapter + 1` with one slot held by the
  dispatcher itself (line 121).
* `chFetch i`: worker `i` completes `FetchPaths` (line 133). On error it
  runs `defer cancel()` and computes the wrapped chapter error (lines
  135-136) — recording of that error by the errgroup is the separate later
  step `chFail i`. On success it runs `p.Add(1)` (line 138) and starts
  emitting; with an empty manifest it returns nil at once.
  With an already-canceled context `FetchPaths` fails without network I/O.
* `chEmit i`: worker `i` sends its next path (`ch <- path`, line 143), a
  rendezvous requiring the `pathsToImages` dispatcher to be in its `select`;
  then `p.Increase(1)` (line 144); after the last path it returns nil.
* `chEmitCancel i`: emitting worker `i` takes `<-ctx.Done()` and returns
  `fmt.Errorf("canceled")` (lines 141-142), recorded immediately.
* `chFail i`: the errgroup wrapper of worker `i` records its error.
* `chDeliver`: the outer errgroup's `eg.Go(childEg.Wait)` (line 95) returns
  the finished chapter group's error to the outer `errOnce`.
* the `img*` choices are the symmetric transitions of `pathsToImages`
  (lines 162-204) and of the outer collection loop: `imgEmit i` is the
  rendezvous `ch <- path.WithImage(image)` (line 189) with the always-ready
  result loop, which then runs `p.Add(1)` and appends (lines 101-104). -/
def step (net : Net) (s : PipeState) : Choice → PipeState
  | .chDispCancel =>
    if s.chDisp = DispSt.running ∧ s.cancelFlag then
      { s with chDisp := DispSt.done, chErr := errOnce s.chErr Err.canceled }
    else s
  | .chDispRecv =>
    match s.chDisp, s.chaptersPending with
    | .running, c :: rest =>
      { s with chDisp := DispSt.holding c, chaptersPending := rest,
               chDiscovered := s.chDiscovered + 1 }
    | .running, [] => { s with chDisp := DispSt.done }
    | _, _ => s
  | .chSpawn =>
    match s.chDisp with
    | .holding c =>
      if countActive s.chWorkers < maxJobsChapter then
        { s with chDisp := DispSt.running,
                 chWorkers := s.chWorkers ++ [some (ChWorker.fetching c)] }
      else s
    | _ => s
  | .chFetch i =>
    match s.chWorkers[i]? with
    | some (some (ChWorker.fetching c)) =>
      if s.cancelFlag then
        { s with chWorkers := (s.chWorkers.set i
            (some (ChWorker.failed (Err.chapterPaths c.Info.Identifier true 0)))) }
      else
        match net.fetchPaths c with
        | .error e =>
          { s with cancelFlag := true,
                   chWorkers := (s.chWorkers.set i
                     (some (ChWorker.failed (Err.chapterPaths c.Info.Identifier false e)))) }
        | .ok paths =>
          { s with chCompleted := s.chCompleted + 1,
                   chWorkers := (s.chWorkers.set i
                     (if paths.isEmpty then none else some (ChWorker.emitting c paths))) }
    | _ => s
  | .chEmit i =>
    match s.chWorkers[i]?, s.imgDisp with
    | some (some (ChWorker.emitting c (p :: rest))), .running =>
      { s with imgDisp := DispSt.holding p,
               pageDiscovered := s.pageDiscovered + 1,
               chWorkers := (s.chWorkers.set i
                 (if rest.isEmpty then none else some (ChWorker.emitting c rest))) }
    | _, _ => s
  | .chEmitCancel i =>
    match s.chWorkers[i]? with
    | some (some (ChWorker.emitting _ _)) =>
      if s.cancelFlag then
        { s with chErr := errOnce s.chErr Err.canceled,
                 chWorkers := s.chWorkers.set i none }
      else s
    | _ => s
  | .chFail i =>
    match s.chWorkers[i]? with
    | some (some (ChWorker.failed e)) =>
      { s with chErr := errOnce s.chErr e, chWorkers := s.chWorkers.set i none }
    | _ => s
  | .chDeliver =>
    if chGroupDone s ∧ s.chDelivered = false then
      { s with chDelivered := true,
               outerErr := match s.chErr with
                 | some e => errOnce s.outerErr e
                 | none => s.outerErr }
    else s
  | .imgDispCancel =>
    if s.imgDisp = DispSt.running ∧ s.cancelFlag then
      { s with imgDisp := DispSt.done, imgErr := errOnce s.imgErr Err.canceled }
    else s
  | .imgDispRecv =>
    if s.imgDisp = DispSt.running ∧ chGroupDone s then
      { s with imgDisp := DispSt.done }
    else s
  | .imgSpawn =>
    match s.imgDisp with
    | .holding p =>
      if countActive s.imgWorkers < maxJobsImage then
        { s with imgDisp := DispSt.running,
                 imgWorkers := s.imgWorkers ++ [some (ImgWorker.fetching p)] }
      else s
    | _ => s
  | .imgFetch i =>
    match s.imgWorkers[i]? with
    | some (some (ImgWorker.fetching p)) =>
      if s.cancelFlag then
        { s with imgWorkers := (s.imgWorkers.set i
            (some (ImgWorker.failed (Err.image p.chapterID p.imageID GetImageErr.ctxCanceled)))) }
      else
        match net.fetchImage p with
        | .error e =>
          { s with cancelFlag := true,
                   imgWorkers := (s.imgWorkers.set i
                     (some (ImgWorker.failed (Err.image p.chapterID p.imageID e)))) }
        | .ok img =>
          { s with imgWorkers := (s.imgWorkers.set i
              (some (ImgWorker.emitting p img))) }
    | _ => s
  | .imgEmit i =>
    match s.imgWorkers[i]? with
    | some (some (ImgWorker.emitting p img)) =>
      { s with results := s.results ++ [p.WithImage img],
               imgCompleted := s.imgCompleted + 1,
               imgWorkers := s.imgWorkers.set i none }
    | _ => s
  | .imgEmitCancel i =>
    match s.imgWorkers[i]? with
    | some (some (ImgWorker.emitting _ _)) =>
      if s.cancelFlag then
        { s with imgErr := errOnce s.imgErr Err.canceled,
                 imgWorkers := s.imgWorkers.set i none }
      else s
    | _ => s
  | .imgFail i =>
    match s.imgWorkers[i]? with
    | some (some (ImgWorker.failed e)) =>
      { s with imgErr := errOnce s.imgErr e, imgWorkers := s.imgWorkers.set i none }
    | _ => s
  | .imgDeliver =>
    if imgGroupDone s ∧ s.imgDelivered = false then
      { s with imgDelivered := true,
               outerErr := match s.imgErr with
                 | some e => errOnce s.outerErr e
                 | none => s.outerErr }
    else s

/-- Initial state of `MangadexPages chapterList p` (`root.go` lines 79-100). -/
def initState (chapterList : List Chapter) : PipeState :=
  { chaptersPending := chapterList
    chDisp := DispSt.running
    chWorkers := []
    chErr := none
    chDelivered := false
    imgDisp := DispSt.running
    imgWorkers := []
    imgErr := none
    imgDelivered := false
    outerErr := none
    cancelFlag := false
    results := []
    chDiscovered := 0
    pageDiscovered := 0
    chCompleted := 0
    imgCompleted := 0 }

/-- The state reached from `initState chapterList` by executing the schedule
`sched`; every state the pipeline can reach is of this form. -/
def run (net : Net) (chapterList : List Chapter) (sched : List Choice) : PipeState :=
  sched.foldl (step net) (initState chapterList)

/-- The run has terminated: both stage errgroups are drained and both
`childEg.Wait` results have been delivered to the outer errgroup, so
`eg.Wait()` in `MangadexPages` (line 106) has returned. -/
def finished (s : PipeState) : Prop :=
  chGroupDone s ∧ imgGroupDone s ∧ s.chDelivered = true ∧ s.imgDelivered = true

instance (s : PipeState) : Decidable (finished s) := by
  unfold finished; infer_instance

/-- The value returned by `MangadexPages` (`root.go` lines 106-110): on a
non-nil `eg.Wait()` error, `(nil, err)`; otherwise the collected results. -/
def MangadexPagesReturn (s : PipeState) : Except Err (List ImageItem) :=
  match s.outerErr with
  | some e => Except.error e
  | none => Except.ok s.results

instance {E A : Type} [DecidableEq E] [DecidableEq A] : DecidableEq (Except E A) := fun a b =>
  match a, b with
  | Except.ok x, Except.ok y =>
    if h : x = y then isTrue (by rw [h])
    else isFalse (by intro hc; injection hc; exact h (by assumption))
  | Except.error x, Except.error y =>
    if h : x = y then isTrue (by rw [h])
    else isFalse (by intro hc; injection hc; exact h (by assumption))
  | Except.ok _, Except.error _ => isFalse (by intro hc; cases hc)
  | Except.error _, Except.ok _ => isFalse (by intro hc; cases hc)

/-- A step starts a network request exactly when it completes the dispatch
into `FetchPaths` or `getImage` with a context that is not yet canceled (a
request under a canceled context fails before any network I/O). -/
def startsNetwork (s : PipeState) : Choice → Bool
  | .chFetch i =>
    match s.chWorkers[i]? with
    | some (some (ChWorker.fetching _)) => !s.cancelFlag
    | _ => false
  | .imgFetch i =>
    match s.imgWorkers[i]? with
    | some (some (ImgWorker.fetching _)) => !s.cancelFlag
    | _ => false
  | _ => false

/-! ### Derived quantities and invariant predicates -/

/-- A network oracle in which every call succeeds: `fetchPaths` resolves each
chapter's manifest to `pages c` and each page decodes to `bmp p`. -/
def successNet (pages : Chapter → List PathItem) (bmp : PathItem → Option Bitmap) : Net :=
  { fetchPaths := fun c => Except.ok (pages c)
    fetchImage := fun p => Except.ok (bmp p) }

/-- The image that page `p` eventually turns into under the oracle `bmp`. -/
def finImg (bmp : PathItem → Option Bitmap) (p : PathItem) : ImageItem :=
  p.WithImage (bmp p)

/-- All images a chapter's pages eventually turn into. -/
def chapterImgs (pages : Chapter → List PathItem) (bmp : PathItem → Option Bitmap)
    (c : Chapter) : List ImageItem :=
  (pages c).map (finImg bmp)

/-- The multiset of images that `MangadexPages` must produce for
`chapterList` when every call succeeds: one image per page of every
chapter. -/
def expectedImgs (pages : Chapter → List PathItem) (bmp : PathItem → Option Bitmap)
    (chapterList : List Chapter) : Multiset ImageItem :=
  ((chapterList.flatMap pages).map (finImg bmp) : List ImageItem)

/-- Images still owed by one chapter-stage worker slot. -/
def chWOut (pages : Chapter → List PathItem) (bmp : PathItem → Option Bitmap) :
    Option ChWorker → Multiset ImageItem
  | some (ChWorker.fetching c) => (chapterImgs pages bmp c : List ImageItem)
  | some (ChWorker.emitting _ pend) => (pend.map (finImg bmp) : List ImageItem)
  | _ => 0

/-- Images still owed by one image-stage worker slot. -/
def imgWOut (bmp : PathItem → Option Bitmap) : Option ImgWorker → Multiset ImageItem
  | some (ImgWorker.fetching p) => {finImg bmp p}
  | some (ImgWorker.emitting p img) => {p.WithImage img}
  | _ => 0

/-- Images still owed by the chapter dispatcher (the chapter it holds). -/
def chDispOut (pages : Chapter → List PathItem) (bmp : PathItem → Option Bitmap) :
    DispSt Chapter → Multiset ImageItem
  | DispSt.holding c => (chapterImgs pages bmp c : List ImageItem)
  | _ => 0

/-- Image still owed by the image dispatcher (the path it holds). -/
def imgDispOut (bmp : PathItem → Option Bitmap) : DispSt PathItem → Multiset ImageItem
  | DispSt.holding p => {finImg bmp p}
  | _ => 0

/-- Images owed by the image stage: held path plus worker slots. -/
def stage2Out (bmp : PathItem → Option Bitmap) (s : PipeState) : Multiset ImageItem :=
  imgDispOut bmp s.imgDisp + (s.imgWorkers.map (imgWOut bmp)).sum

/-- All images not yet appended to `results`. -/
def outstanding (pages : Chapter → List PathItem) (bmp : PathItem → Option Bitmap)
    (s : PipeState) : Multiset ImageItem :=
  ((s.chaptersPending.flatMap pages).map (finImg bmp) : List ImageItem)
    + chDispOut pages bmp s.chDisp
    + (s.chWorkers.map (chWOut pages bmp)).sum
    + stage2Out bmp s

/-- Number of chapter workers currently inside `FetchPaths`. -/
def countFetchingCh (ws : List (Option ChWorker)) : Nat :=
  (ws.map fun o => match o with | some (ChWorker.fetching _) => 1 | _ => 0).sum

/-- Number of image workers currently inside `getImage`. -/
def countFetchingImg (ws : List (Option ImgWorker)) : Nat :=
  (ws.map fun o => match o with | some (ImgWorker.fetching _) => 1 | _ => 0).sum

/-- 1 when a dispatcher holds a received value while blocked in `eg.Go`. -/
def dispHold {α : Type} : DispSt α → Nat
  | DispSt.holding _ => 1
  | _ => 0

/-- Net-independent safety facts of every reachable state. `clean*`: while
cancellation has not fired, no errors have been recorded and no worker has
failed. `doneEmpty`: the chapter dispatcher only returns with chapters left
unread if it errored. `deliv*`: a delivered stage `Wait` result means the
stage was finished, and a recorded stage error has reached the outer
errgroup. `bound*`: pool sizes respect the `SetLimit` caps. -/
structure BaseInv (s : PipeState) : Prop where
  cleanChErr : s.cancelFlag = false → s.chErr = none
  cleanImgErr : s.cancelFlag = false → s.imgErr = none
  cleanOuterErr : s.cancelFlag = false → s.outerErr = none
  cleanChW : s.cancelFlag = false →
    ∀ (j : Nat) (e : Err), s.chWorkers[j]? ≠ some (some (ChWorker.failed e))
  cleanImgW : s.cancelFlag = false →
    ∀ (j : Nat) (e : Err), s.imgWorkers[j]? ≠ some (some (ImgWorker.failed e))
  doneEmpty : s.chDisp = DispSt.done → s.chaptersPending = [] ∨ s.chErr ≠ none
  flagErr : s.cancelFlag = true →
    (∃ (j : Nat), ∃ e, s.chWorkers[j]? = some (some (ChWorker.failed e))) ∨
    (∃ (j : Nat), ∃ e, s.imgWorkers[j]? = some (some (ImgWorker.failed e))) ∨
    s.chErr ≠ none ∨ s.imgErr ≠ none
  delivCh : s.chDelivered = true → chGroupDone s ∧ (s.chErr ≠ none → s.outerErr ≠ none)
  delivImg : s.imgDelivered = true → imgGroupDone s ∧ (s.imgErr ≠ none → s.outerErr ≠ none)
  boundCh : countActive s.chWorkers ≤ maxJobsChapter
  boundImg : countActive s.imgWorkers ≤ maxJobsImage

/-- State invariant of an all-success run: cancellation never fires, the
multiset of produced plus still-owed images is exactly `expectedImgs`, and
the progress counters track the pipeline position. -/
structure SuccessInv (pages : Chapter → List PathItem) (bmp : PathItem → Option Bitmap)
    (chapterList : List Chapter) (s : PipeState) : Prop where
  flag : s.cancelFlag = false
  acct : outstanding pages bmp s + (s.results : Multiset ImageItem)
    = expectedImgs pages bmp chapterList
  cDisc : s.chDiscovered + s.chaptersPending.length = chapterList.length
  cComp : s.chCompleted + s.chaptersPending.length + dispHold s.chDisp
    + countFetchingCh s.chWorkers = chapterList.length
  pDisc : s.pageDiscovered = Multiset.card (stage2Out bmp s) + s.results.length
  iComp : s.imgCompleted = s.results.length

/-- The error `e` names the chapter identifier `cid` in its `fmt.Errorf`
chain. -/
def Err.mentionsChapter : Err → MdId → Prop
  | Err.canceled, _ => False
  | Err.chapterPaths c _ _, cid => c = cid
  | Err.image c _ _, cid => c = cid

instance (e : Err) (cid : MdId) : Decidable (e.mentionsChapter cid) := by
  cases e <;> simp [Err.mentionsChapter] <;> infer_instance

/-- Provenance agreement between a produced image and a page locator. -/
def provEq (it : ImageItem) (p : PathItem) : Prop :=
  it.chapterID = p.chapterID ∧ it.volumeID = p.volumeID ∧ it.imageID = p.imageID

instance (it : ImageItem) (p : PathItem) : Decidable (provEq it p) := by
  unfold provEq; infer_instance

/-- Provenance agreement between two page locators. -/
def pathProvEq (q p : PathItem) : Prop :=
  q.chapterID = p.chapterID ∧ q.volumeID = p.volumeID ∧ q.imageID = p.imageID

instance (q p : PathItem) : Decidable (pathProvEq q p) := by
  unfold pathProvEq; infer_instance

/-- State invariant of a run whose network oracle fails the manifest of
every chapter with identifier `cid` (and in which manifests only list pages
of their own chapter): no page locator of chapter `cid` is ever emitted, no
image of chapter `cid` is ever produced, and the failure leaves a trace that
ends as a recorded error. -/
structure ManifestFailInv (net : Net) (cid : MdId) (s : PipeState) : Prop where
  cleanPend : ∀ (j : Nat) c pend, s.chWorkers[j]? = some (some (ChWorker.emitting c pend)) →
    ∀ p ∈ pend, p.chapterID ≠ cid
  cleanHold : ∀ p, s.imgDisp = DispSt.holding p → p.chapterID ≠ cid
  cleanImgW : ∀ (j : Nat) w, s.imgWorkers[j]? = some (some w) →
    (∀ p, w = ImgWorker.fetching p → p.chapterID ≠ cid) ∧
    (∀ p img, w = ImgWorker.emitting p img → p.chapterID ≠ cid)
  cleanRes : ∀ it ∈ s.results, it.chapterID ≠ cid
  live : (∃ c ∈ s.chaptersPending, c.Info.Identifier = cid) ∨
    (∃ c, s.chDisp = DispSt.holding c ∧ c.Info.Identifier = cid) ∨
    (∃ (j : Nat), ∃ c, s.chWorkers[j]? = some (some (ChWorker.fetching c)) ∧ c.Info.Identifier = cid) ∨
    (∃ (j : Nat), ∃ e, s.chWorkers[j]? = some (some (ChWorker.failed e))) ∨
    s.chErr ≠ none

/-- State invariant of a run in which fetching the image of page `p0` fails
(and no other page shares `p0`'s provenance): no image with `p0`'s
provenance is ever handed downstream, and as long as cancellation has not
fired, `p0` is still on its way to that failing fetch. -/
structure PageFailInv (net : Net) (p0 : PathItem) (c0 : Chapter) (s : PipeState) : Prop where
  noEmit : ∀ (j : Nat) p img, s.imgWorkers[j]? = some (some (ImgWorker.emitting p img)) →
    ¬pathProvEq p p0
  cleanRes : ∀ it ∈ s.results, ¬provEq it p0
  pendFromOk : ∀ (j : Nat) c pend, s.chWorkers[j]? = some (some (ChWorker.emitting c pend)) →
    ∃ l, net.fetchPaths c = Except.ok l ∧ pend ⊆ l
  holdFromOk : ∀ p, s.imgDisp = DispSt.holding p →
    ∃ c l, net.fetchPaths c = Except.ok l ∧ p ∈ l
  fetchFromOk : ∀ (j : Nat) p, s.imgWorkers[j]? = some (some (ImgWorker.fetching p)) →
    ∃ c l, net.fetchPaths c = Except.ok l ∧ p ∈ l
  live : s.cancelFlag = false →
    c0 ∈ s.chaptersPending ∨
    s.chDisp = DispSt.holding c0 ∨
    (∃ (j : Nat), s.chWorkers[j]? = some (some (ChWorker.fetching c0))) ∨
    (∃ (j : Nat), ∃ c pend, s.chWorkers[j]? = some (some (ChWorker.emitting c pend)) ∧ p0 ∈ pend) ∨
    s.imgDisp = DispSt.holding p0 ∨
    (∃ (j : Nat), s.imgWorkers[j]? = some (some (ImgWorker.fetching p0)))

/-! ### Concrete scenarios used by witnesses and counterexamples -/

/-- Example chapter 1 (identifier 1, volume 10). -/
def exC1 : Chapter := ⟨⟨1, 10, 100⟩⟩

/-- Example chapter 2 (identifier 2, volume 10). -/
def exC2 : Chapter := ⟨⟨2, 10, 200⟩⟩

/-- Pages of the two example chapters: 3 pages for chapter 1, 2 pages for
chapter 2. -/
def exPages : Chapter → List PathItem := fun c =>
  if c = exC1 then
    [⟨"u11", 1, 1, 10⟩, ⟨"u12", 2, 1, 10⟩, ⟨"u13", 3, 1, 10⟩]
  else if c = exC2 then
    [⟨"u21", 1, 2, 10⟩, ⟨"u22", 2, 2, 10⟩]
  else []

/-- Every page decodes to a bitmap derived from its image identifier. -/
def exBmp : PathItem → Option Bitmap := fun p => some p.imageID

/-- A schedule that drives the 2-chapter example to successful completion. -/
def exSchedFull : List Choice :=
  [Choice.chDispRecv, Choice.chSpawn, Choice.chDispRecv, Choice.chSpawn, Choice.chDispRecv,
   Choice.chFetch 0, Choice.chFetch 1,
   Choice.chEmit 0, Choice.imgSpawn, Choice.imgFetch 0, Choice.imgEmit 0,
   Choice.chEmit 0, Choice.imgSpawn, Choice.imgFetch 1, Choice.imgEmit 1,
   Choice.chEmit 0, Choice.imgSpawn, Choice.imgFetch 2, Choice.imgEmit 2,
   Choice.chEmit 1, Choice.imgSpawn, Choice.imgFetch 3, Choice.imgEmit 3,
   Choice.chEmit 1, Choice.imgSpawn, Choice.imgFetch 4, Choice.imgEmit 4,
   Choice.imgDispRecv, Choice.chDeliver, Choice.imgDeliver]

/-- One-chapter, one-page success scenario. -/
def exNetSmall : Net := successNet (fun _ => [⟨"u", 5, 3, 7⟩]) (fun _ => some 9)

/-- Schedule completing the one-chapter, one-page success scenario. -/
def exSchedSmall : List Choice :=
  [Choice.chDispRecv, Choice.chSpawn, Choice.chDispRecv, Choice.chFetch 0,
   Choice.chEmit 0, Choice.imgSpawn, Choice.imgFetch 0, Choice.imgEmit 0,
   Choice.imgDispRecv, Choice.chDeliver, Choice.imgDeliver]

/-- A network oracle whose single chapter manifest fails with error code 3;
used to exhibit the cancellation-signal race. -/
def exNetFail : Net :=
  { fetchPaths := fun _ => Except.error 3
    fetchImage := fun p => Except.ok (some p.imageID) }

/-- Schedule in which the image-stage dispatcher observes cancellation and
its `canceled` error reaches the outer errgroup before the chapter error
does. -/
def exSchedFail : List Choice :=
  [Choice.chDispRecv, Choice.chSpawn, Choice.chDispRecv, Choice.chFetch 0,
   Choice.imgDispCancel, Choice.imgDeliver, Choice.chFail 0, Choice.chDeliver]

/-- Schedule in which the chapter error is recorded and delivered first, so
the caller sees the chapter-naming error. -/
def exSchedFailOrdered : List Choice :=
  [Choice.chDispRecv, Choice.chSpawn, Choice.chDispRecv, Choice.chFetch 0,
   Choice.chFail 0, Choice.chDeliver, Choice.imgDispCancel, Choice.imgDeliver]

/-- Two-chapter scenario for the handoff race: chapter 1 has one page that
fetches fine; chapter 2's manifest fails. -/
def exNetRace : Net :=
  { fetchPaths := fun c => if c = exC1 then Except.ok [⟨"r1", 4, 1, 10⟩] else Except.error 6
    fetchImage := fun p => Except.ok (some p.imageID) }

/-- Schedule prefix after which cancellation has fired while an image worker
is still blocked handing its decoded image downstream. -/
def exSchedRace : List Choice :=
  [Choice.chDispRecv, Choice.chSpawn, Choice.chDispRecv, Choice.chSpawn,
   Choice.chFetch 0, Choice.chEmit 0, Choice.imgSpawn, Choice.imgFetch 0,
   Choice.chFetch 1]

/-- One-chapter scenario whose single page returns HTTP status 404. -/
def exNet404 : Net :=
  { fetchPaths := fun _ => Except.ok [⟨"v1", 2, 5, 8⟩, ⟨"v2", 3, 5, 8⟩]
    fetchImage := fun p =>
      if p = ⟨"v1", 2, 5, 8⟩ then Except.error (GetImageErr.status 404) else Except.ok (some 1) }

/-- Schedule completing the 404 scenario: the failing page is fetched, its
error recorded, all other work unwinds. -/
def exSched404 : List Choice :=
  [Choice.chDispRecv, Choice.chSpawn, Choice.chDispRecv, Choice.chFetch 0,
   Choice.chEmit 0, Choice.imgSpawn, Choice.imgFetch 0,
   Choice.chEmitCancel 0, Choice.imgFail 0,
   Choice.imgDispCancel, Choice.chDispCancel, Choice.chDeliver, Choice.imgDeliver]

/-- One-chapter, one-page scenario whose image fetch is the persistent
decode quirk: `getImage` is entered with the quirk oracle. -/
def exNetQuirk : Net :=
  { fetchPaths := fun _ => Except.ok [⟨"q", 7, 4, 2⟩]
    fetchImage := fun _ => getImage quirkFetch 0 }

/-! ### General-purpose list lemmas -/

theorem mem_of_getElemQ {α : Type} {l : List α} {i : Nat} {a : α} (h : l[i]? = some a) :
    a ∈ l := by
  obtain ⟨hi, rfl⟩ := List.getElem?_eq_some.mp h
  exact List.getElem_mem hi

theorem sum_map_set {α β : Type} [AddCommMonoid β] (f : α → β) :
    ∀ (l : List α) (i : Nat) (a b : α), l[i]? = some b →
      ((l.set i a).map f).sum + f b = (l.map f).sum + f a := by
  intro l
  induction l with
  | nil => intro i a b h; simp at h
  | cons x xs ih =>
    intro i a b h
    cases i with
    | zero =>
      simp only [List.getElem?_cons_zero, Option.some_inj] at h
      subst h
      simp only [List.set_cons_zero, List.map_cons, List.sum_cons]
      abel
    | succ i =>
      simp only [List.getElem?_cons_succ] at h
      simp only [List.set_cons_succ, List.map_cons, List.sum_cons, add_assoc]
      rw [ih i a b h]

theorem countActive_append {α : Type} (ws : List (Option α)) (o : Option α) :
    countActive (ws ++ [o]) = countActive ws + (if o.isSome then 1 else 0) := by
  simp [countActive]

theorem countActive_set {α : Type} (ws : List (Option α)) (i : Nat) (v o : Option α)
    (h : ws[i]? = some o) :
    countActive (ws.set i v) + (if o.isSome then 1 else 0)
      = countActive ws + (if v.isSome then 1 else 0) :=
  sum_map_set _ ws i v o h

theorem countActive_eq_zero {α : Type} {ws : List (Option α)} (h : countActive ws = 0) :
    ∀ o ∈ ws, o = none := by
  induction ws with
  | nil => simp
  | cons x xs ih =>
    intro o ho
    rcases List.mem_cons.mp ho with rfl | ho
    · cases o with
      | none => rfl
      | some a => simp [countActive] at h
    · refine ih ?_ o ho
      cases x <;> simp_all [countActive]

theorem countActive_pos {α : Type} {ws : List (Option α)} {j : Nat} {w : α}
    (h : ws[j]? = some (some w)) : countActive ws ≠ 0 := by
  intro hz
  have := countActive_eq_zero hz _ (mem_of_getElemQ h)
  simp at this

theorem countActive_zero_getElem {α : Type} {ws : List (Option α)} (h : countActive ws = 0)
    (i : Nat) (o : Option α) (ho : ws[i]? = some o) : o = none :=
  countActive_eq_zero h o (mem_of_getElemQ ho)

/-! ### getImage lemmas -/

set_option maxRecDepth 200000

theorem getImage_quirkFetch : getImage quirkFetch 0 = Except.ok none := by
  simp [getImage, quirkFetch]

theorem getImageAttempts_quirkFetch : getImageAttempts quirkFetch 0 = 12 := by
  simp [getImageAttempts, quirkFetch]

/-- `getImage` makes at most `1 + (11 - t)` attempts from attempt counter `t`. -/
theorem getImageAttempts_le (fetch : Nat → Attempt) :
    ∀ t, getImageAttempts fetch t ≤ 1 + (11 - t) := by
  intro t
  induction t using getImageAttempts.induct fetch with
  | case1 x h => rw [getImageAttempts, h]; simp
  | case2 x h => rw [getImageAttempts, h]; simp
  | case3 x a a1 a2 h hne => rw [getImageAttempts, h]; simp [hne]
  | case4 x a a1 a2 h hne hq ih =>
    rw [getImageAttempts, h]
    simp only [if_neg hne, if_pos hq]
    omega
  | case5 x a a1 a2 h hne hq =>
    rw [getImageAttempts, h]
    simp only [if_neg hne, if_neg hq]
    omega

/-- When every attempt is the decode quirk, `getImage` ends with a null
image and a nil error from every starting counter. -/
theorem getImage_quirk_persistent (fetch : Nat → Attempt)
    (h : ∀ t, fetch t = Attempt.response 200 none none) :
    ∀ t, getImage fetch t = Except.ok none := by
  intro t
  induction t using getImage.induct fetch with
  | case1 x hx => have hh := hx.symm.trans (h x); simp at hh
  | case2 x hx => have hh := hx.symm.trans (h x); simp at hh
  | case3 x a a1 a2 hx hne =>
    have hh := hx.symm.trans (h x)
    injection hh with h1 h2
    exact absurd h1 hne
  | case4 x a a1 a2 hx hne hq ih =>
    rw [getImage, hx]
    simp only [if_neg hne, if_pos hq]
    exact ih
  | case5 x a a1 hne hq e hx =>
    have hh := hx.symm.trans (h x)
    simp at hh
  | case6 x a a1 hne hq hx =>
    have hh := hx.symm.trans (h x)
    injection hh with h1 h2
    subst h1
    subst h2
    rw [getImage, hx]
    have hx10 : ¬x ≤ 10 := by simpa using hq
    simp [hx10]

/-- A first-attempt response with a non-200 status fails immediately with a
wrapped status error, with no further attempt. -/
theorem getImage_status (fetch : Nat → Attempt) (code : Nat) (img : Option Bitmap)
    (er : Option Nat) (h : fetch 0 = Attempt.response code img er) (hc : code ≠ 200) :
    getImage fetch 0 = Except.error (GetImageErr.status code)
      ∧ getImageAttempts fetch 0 = 1 := by
  constructor
  · rw [getImage, h]; simp [hc]
  · rw [getImageAttempts, h]; simp [hc]

/-! ### MangadexCovers lemmas -/

theorem coversCollect_eq (arrived : List ImageItem) :
    ∀ results, coversCollect results arrived = results ++ arrived := by
  induction arrived with
  | nil => intro results; simp [coversCollect]
  | cons a rest ih => intro results; rw [coversCollect, ih]; simp

/-! ### Step lemmas: monotonicity and stability -/

theorem errOnce_ne_none (o : Option Err) (e : Err) : errOnce o e ≠ none := by
  cases o <;> simp [errOnce]

theorem errOnce_of_some {o : Option Err} {x : Err} (h : o = some x) (e : Err) :
    errOnce o e = some x := by
  subst h; rfl

/-- Cancellation is monotonic: no transition resets the canceled context. -/
theorem step_cancelFlag_mono (net : Net) (s : PipeState) (c : Choice)
    (h : s.cancelFlag = true) : (step net s c).cancelFlag = true := by
  cases c <;> simp only [step] <;>
    repeat first
    | assumption
    | rfl
    | (split <;> try assumption)

/-- The first recorded chapter-stage error is never overwritten. -/
theorem step_chErr_mono (net : Net) (s : PipeState) (c : Choice) {e : Err}
    (h : s.chErr = some e) : (step net s c).chErr = some e := by
  cases c <;> simp only [step] <;>
    repeat first
    | assumption
    | rfl
    | exact errOnce_of_some h _
    | (split <;> try assumption)

/-- The first recorded image-stage error is never overwritten. -/
theorem step_imgErr_mono (net : Net) (s : PipeState) (c : Choice) {e : Err}
    (h : s.imgErr = some e) : (step net s c).imgErr = some e := by
  cases c <;> simp only [step] <;>
    repeat first
    | assumption
    | rfl
    | exact errOnce_of_some h _
    | (split <;> try assumption)

/-- The first error recorded by the outer errgroup is never overwritten. -/
theorem step_outerErr_mono (net : Net) (s : PipeState) (c : Choice) {e : Err}
    (h : s.outerErr = some e) : (step net s c).outerErr = some e := by
  cases c <;> simp only [step] <;>
    repeat first
    | assumption
    | rfl
    | exact errOnce_of_some h _
    | (split
       <;> try first | assumption | (simp only []; split <;> first | exact errOnce_of_some h _ | assumption))

/-- If a stage errgroup has finished, every later transition leaves it
finished and leaves its recorded error untouched. -/
theorem chGroupDone_stable (net : Net) (s : PipeState) (c : Choice)
    (hd : s.chDisp = DispSt.done) (hw : countActive s.chWorkers = 0) :
    (step net s c).chDisp = DispSt.done ∧ countActive (step net s c).chWorkers = 0
      ∧ (step net s c).chErr = s.chErr := by
  have hnone := countActive_zero_getElem hw
  cases c <;> simp only [step] <;> repeat (any_goals split)
  all_goals
    first
    | (simp_all; done)
    | (have h0 := hnone _ _ (by assumption); simp at h0)

theorem imgGroupDone_stable (net : Net) (s : PipeState) (c : Choice)
    (hd : s.imgDisp = DispSt.done) (hw : countActive s.imgWorkers = 0) :
    (step net s c).imgDisp = DispSt.done ∧ countActive (step net s c).imgWorkers = 0
      ∧ (step net s c).imgErr = s.imgErr := by
  have hnone := countActive_zero_getElem hw
  cases c <;> simp only [step] <;> repeat (any_goals split)
  all_goals
    first
    | (simp_all; done)
    | (have h0 := hnone _ _ (by assumption); simp at h0)

/-! ### Indexed-lookup helper lemmas -/

theorem getElemQ_append_left {α : Type} {l : List α} {j : Nat} {a : α} (h : l[j]? = some a)
    (t : List α) : (l ++ t)[j]? = some a := by
  rw [List.getElem?_append_left (List.getElem?_eq_some.mp h).1]; exact h

theorem forall_getElemQ_set {α : Type} {P : α → Prop} {ws : List α}
    (h : ∀ (j : Nat) (a : α), ws[j]? = some a → P a) (i : Nat) {v : α} (hv : P v) :
    ∀ (j : Nat) (a : α), (ws.set i v)[j]? = some a → P a := by
  intro j a hj
  rw [List.getElem?_set] at hj
  split at hj
  · split at hj
    · injection hj with hj; subst hj; exact hv
    · exact absurd hj (by simp)
  · exact h j a hj

theorem forall_getElemQ_append {α : Type} {P : α → Prop} {ws : List α}
    (h : ∀ (j : Nat) (a : α), ws[j]? = some a → P a) {v : α} (hv : P v) :
    ∀ (j : Nat) (a : α), (ws ++ [v])[j]? = some a → P a := by
  intro j a hj
  rw [List.getElem?_append] at hj
  split at hj
  · exact h j a hj
  · rcases hk : j - ws.length with _ | k <;> rw [hk] at hj <;> simp at hj
    subst hj; exact hv

theorem exists_getElemQ_set {α : Type} {P : α → Prop} {ws : List α} {j : Nat} {a : α}
    (hj : ws[j]? = some a) (hP : P a) {i : Nat} {u : α} (hi : ws[i]? = some u) (hu : ¬P u)
    (v : α) : ∃ (k : Nat), ∃ b, (ws.set i v)[k]? = some b ∧ P b := by
  refine ⟨j, a, ?_, hP⟩
  have hij : i ≠ j := by
    rintro rfl
    rw [hi] at hj
    injection hj with hj
    subst hj
    exact hu hP
  rw [List.getElem?_set_ne hij]
  exact hj

theorem noFailCh_set {ws : List (Option ChWorker)}
    (h : ∀ (j : Nat) (e : Err), ws[j]? ≠ some (some (ChWorker.failed e)))
    (i : Nat) {v : Option ChWorker} (hv : ∀ e, v ≠ some (ChWorker.failed e)) :
    ∀ (j : Nat) (e : Err), (ws.set i v)[j]? ≠ some (some (ChWorker.failed e)) := by
  have h2 : ∀ (j : Nat) (a : Option ChWorker), ws[j]? = some a →
      (∀ e, a ≠ some (ChWorker.failed e)) := by
    intro j a hj e rfl2
    exact h j e (by rw [hj, rfl2])
  intro j e hj
  exact forall_getElemQ_set h2 i (by exact hv) j _ hj e rfl

theorem noFailImg_set {ws : List (Option ImgWorker)}
    (h : ∀ (j : Nat) (e : Err), ws[j]? ≠ some (some (ImgWorker.failed e)))
    (i : Nat) {v : Option ImgWorker} (hv : ∀ e, v ≠ some (ImgWorker.failed e)) :
    ∀ (j : Nat) (e : Err), (ws.set i v)[j]? ≠ some (some (ImgWorker.failed e)) := by
  have h2 : ∀ (j : Nat) (a : Option ImgWorker), ws[j]? = some a →
      (∀ e, a ≠ some (ImgWorker.failed e)) := by
    intro j a hj e rfl2
    exact h j e (by rw [hj, rfl2])
  intro j e hj
  exact forall_getElemQ_set h2 i (by exact hv) j _ hj e rfl

theorem noFailCh_append {ws : List (Option ChWorker)}
    (h : ∀ (j : Nat) (e : Err), ws[j]? ≠ some (some (ChWorker.failed e)))
    {v : Option ChWorker} (hv : ∀ e, v ≠ some (ChWorker.failed e)) :
    ∀ (j : Nat) (e : Err), (ws ++ [v])[j]? ≠ some (some (ChWorker.failed e)) := by
  have h2 : ∀ (j : Nat) (a : Option ChWorker), ws[j]? = some a →
      (∀ e, a ≠ some (ChWorker.failed e)) := by
    intro j a hj e rfl2
    exact h j e (by rw [hj, rfl2])
  intro j e hj
  exact forall_getElemQ_append h2 (by exact hv) j _ hj e rfl

theorem noFailImg_append {ws : List (Option ImgWorker)}
    (h : ∀ (j : Nat) (e : Err), ws[j]? ≠ some (some (ImgWorker.failed e)))
    {v : Option ImgWorker} (hv : ∀ e, v ≠ some (ImgWorker.failed e)) :
    ∀ (j : Nat) (e : Err), (ws ++ [v])[j]? ≠ some (some (ImgWorker.failed e)) := by
  have h2 : ∀ (j : Nat) (a : Option ImgWorker), ws[j]? = some a →
      (∀ e, a ≠ some (ImgWorker.failed e)) := by
    intro j a hj e rfl2
    exact h j e (by rw [hj, rfl2])
  intro j e hj
  exact forall_getElemQ_append h2 (by exact hv) j _ hj e rfl

theorem countActive_set_le {α : Type} {ws : List (Option α)} {i : Nat} {w : α}
    (h : ws[i]? = some (some w)) (v : Option α) :
    countActive (ws.set i v) ≤ countActive ws := by
  have h2 := countActive_set ws i v (some w) h
  cases v <;> simp at h2 <;> omega

/-! ### Field-wise preservation of `BaseInv` -/

set_option maxHeartbeats 1000000

/-- While cancellation has not fired, no errors are recorded and no worker
has failed; preserved by every transition. -/
theorem step_clean (net : Net) (s : PipeState) (c : Choice)
    (h1 : s.cancelFlag = false → s.chErr = none)
    (h2 : s.cancelFlag = false → s.imgErr = none)
    (h3 : s.cancelFlag = false → s.outerErr = none)
    (h4 : s.cancelFlag = false →
      ∀ (j : Nat) (e : Err), s.chWorkers[j]? ≠ some (some (ChWorker.failed e)))
    (h5 : s.cancelFlag = false →
      ∀ (j : Nat) (e : Err), s.imgWorkers[j]? ≠ some (some (ImgWorker.failed e))) :
    ((step net s c).cancelFlag = false → (step net s c).chErr = none) ∧
    ((step net s c).cancelFlag = false → (step net s c).imgErr = none) ∧
    ((step net s c).cancelFlag = false → (step net s c).outerErr = none) ∧
    ((step net s c).cancelFlag = false →
      ∀ (j : Nat) (e : Err), (step net s c).chWorkers[j]? ≠ some (some (ChWorker.failed e))) ∧
    ((step net s c).cancelFlag = false →
      ∀ (j : Nat) (e : Err), (step net s c).imgWorkers[j]? ≠ some (some (ImgWorker.failed e))) := by
  by_cases hf : s.cancelFlag = true
  · have hm := step_cancelFlag_mono net s c hf
    exact ⟨fun h => absurd hm (by simp [h]), fun h => absurd hm (by simp [h]),
           fun h => absurd hm (by simp [h]), fun h => absurd hm (by simp [h]),
           fun h => absurd hm (by simp [h])⟩
  · simp only [Bool.not_eq_true] at hf
    have g1 := h1 hf; have g2 := h2 hf; have g3 := h3 hf
    have g4 := h4 hf; have g5 := h5 hf
    cases c <;> simp only [step] <;> repeat (any_goals split)
    all_goals refine ⟨?_, ?_, ?_, ?_, ?_⟩
    all_goals intro hf2
    all_goals
      first
      | exact g1
      | exact g2
      | exact g3
      | exact g4
      | exact g5
      | (simp_all; done)
      | (exact noFailCh_set g4 _ (by simp))
      | (exact noFailImg_set g5 _ (by simp))
      | (exact noFailCh_append g4 (by simp))
      | (exact noFailImg_append g5 (by simp))

/-- A dispatcher that returned with chapters still unread recorded an error. -/
theorem step_doneEmpty (net : Net) (s : PipeState) (c : Choice)
    (h : s.chDisp = DispSt.done → s.chaptersPending = [] ∨ s.chErr ≠ none) :
    (step net s c).chDisp = DispSt.done →
      (step net s c).chaptersPending = [] ∨ (step net s c).chErr ≠ none := by
  cases c <;> simp only [step] <;> repeat (any_goals split)
  all_goals intro hd
  all_goals
    first
    | (simp_all [errOnce_ne_none]; done)
    | (rcases h hd with h0 | h0 <;> simp_all [errOnce_ne_none] <;> done)

/-- The chapter pool never exceeds `maxJobsChapter` active workers. -/
theorem step_boundCh (net : Net) (s : PipeState) (c : Choice)
    (h : countActive s.chWorkers ≤ maxJobsChapter) :
    countActive (step net s c).chWorkers ≤ maxJobsChapter := by
  cases c <;> simp only [step] <;> repeat (any_goals split)
  all_goals
    first
    | exact h
    | (simp_all; done)
    | (exact le_trans (countActive_set_le (by assumption) _) h)
    | (rw [countActive_append]; simp_all [maxJobsChapter]; omega)

/-- The image pool never exceeds `maxJobsImage` active workers. -/
theorem step_boundImg (net : Net) (s : PipeState) (c : Choice)
    (h : countActive s.imgWorkers ≤ maxJobsImage) :
    countActive (step net s c).imgWorkers ≤ maxJobsImage := by
  cases c <;> simp only [step] <;> repeat (any_goals split)
  all_goals
    first
    | exact h
    | (simp_all; done)
    | (exact le_trans (countActive_set_le (by assumption) _) h)
    | (rw [countActive_append]; simp_all [maxJobsImage]; omega)


theorem step_delivCh (net : Net) (s : PipeState) (c : Choice)
    (h : s.chDelivered = true → chGroupDone s ∧ (s.chErr ≠ none → s.outerErr ≠ none)) :
    (step net s c).chDelivered = true →
      chGroupDone (step net s c) ∧
      ((step net s c).chErr ≠ none → (step net s c).outerErr ≠ none) := by
  intro hd2
  by_cases hd : s.chDelivered = true
  · obtain ⟨hgd, himp⟩ := h hd
    obtain ⟨h1, h2, h3⟩ := chGroupDone_stable net s c hgd.1 hgd.2
    refine ⟨⟨h1, h2⟩, ?_⟩
    rw [h3]
    intro hne
    obtain ⟨e, he⟩ := Option.ne_none_iff_exists'.mp (himp hne)
    rw [step_outerErr_mono net s c he]
    simp
  · simp only [Bool.not_eq_true] at hd
    cases c <;> simp only [step] at hd2 ⊢
    all_goals (repeat (any_goals split))
    all_goals (repeat (any_goals split at hd2))
    all_goals
      first
      | (exfalso; rw [hd] at hd2; cases hd2; done)
      | (simp_all; done)
      | (obtain ⟨hgd2, -⟩ : chGroupDone s ∧ s.chDelivered = false := by assumption
         refine ⟨⟨hgd2.1, hgd2.2⟩, ?_⟩
         intro hne
         first
         | exact errOnce_ne_none _ _
         | simp_all)

theorem step_delivImg (net : Net) (s : PipeState) (c : Choice)
    (h : s.imgDelivered = true → imgGroupDone s ∧ (s.imgErr ≠ none → s.outerErr ≠ none)) :
    (step net s c).imgDelivered = true →
      imgGroupDone (step net s c) ∧
      ((step net s c).imgErr ≠ none → (step net s c).outerErr ≠ none) := by
  intro hd2
  by_cases hd : s.imgDelivered = true
  · obtain ⟨hgd, himp⟩ := h hd
    obtain ⟨h1, h2, h3⟩ := imgGroupDone_stable net s c hgd.1 hgd.2
    refine ⟨⟨h1, h2⟩, ?_⟩
    rw [h3]
    intro hne
    obtain ⟨e, he⟩ := Option.ne_none_iff_exists'.mp (himp hne)
    rw [step_outerErr_mono net s c he]
    simp
  · simp only [Bool.not_eq_true] at hd
    cases c <;> simp only [step] at hd2 ⊢
    all_goals (repeat (any_goals split))
    all_goals (repeat (any_goals split at hd2))
    all_goals
      first
      | (exfalso; rw [hd] at hd2; cases hd2; done)
      | (simp_all; done)
      | (obtain ⟨hgd2, -⟩ : imgGroupDone s ∧ s.imgDelivered = false := by assumption
         refine ⟨⟨hgd2.1, hgd2.2⟩, ?_⟩
         intro hne
         first
         | exact errOnce_ne_none _ _
         | simp_all)

theorem failedCh_set {ws : List (Option ChWorker)} {j : Nat} {e : Err}
    (hj : ws[j]? = some (some (ChWorker.failed e))) {i : Nat} {u : Option ChWorker}
    (hi : ws[i]? = some u) (hu : ∀ e2, u ≠ some (ChWorker.failed e2)) (v : Option ChWorker) :
    ∃ (k : Nat), ∃ e2, (ws.set i v)[k]? = some (some (ChWorker.failed e2)) := by
  have hij : i ≠ j := by
    rintro rfl
    rw [hi] at hj
    injection hj with hj
    exact hu e hj
  exact ⟨j, e, by rw [List.getElem?_set_ne hij]; exact hj⟩

theorem failedImg_set {ws : List (Option ImgWorker)} {j : Nat} {e : Err}
    (hj : ws[j]? = some (some (ImgWorker.failed e))) {i : Nat} {u : Option ImgWorker}
    (hi : ws[i]? = some u) (hu : ∀ e2, u ≠ some (ImgWorker.failed e2)) (v : Option ImgWorker) :
    ∃ (k : Nat), ∃ e2, (ws.set i v)[k]? = some (some (ImgWorker.failed e2)) := by
  have hij : i ≠ j := by
    rintro rfl
    rw [hi] at hj
    injection hj with hj
    exact hu e hj
  exact ⟨j, e, by rw [List.getElem?_set_ne hij]; exact hj⟩

theorem failedCh_set_self {ws : List (Option ChWorker)} {i : Nat} {u : Option ChWorker}
    (hi : ws[i]? = some u) (e : Err) :
    ∃ (k : Nat), ∃ e2, (ws.set i (some (ChWorker.failed e)))[k]? = some (some (ChWorker.failed e2)) := by
  refine ⟨i, e, ?_⟩
  simp [List.getElem?_set, (List.getElem?_eq_some.mp hi).1]

theorem failedImg_set_self {ws : List (Option ImgWorker)} {i : Nat} {u : Option ImgWorker}
    (hi : ws[i]? = some u) (e : Err) :
    ∃ (k : Nat), ∃ e2, (ws.set i (some (ImgWorker.failed e)))[k]? = some (some (ImgWorker.failed e2)) := by
  refine ⟨i, e, ?_⟩
  simp [List.getElem?_set, (List.getElem?_eq_some.mp hi).1]

theorem step_flagErr (net : Net) (s : PipeState) (c : Choice)
    (h : s.cancelFlag = true →
      (∃ (j : Nat), ∃ e, s.chWorkers[j]? = some (some (ChWorker.failed e))) ∨
      (∃ (j : Nat), ∃ e, s.imgWorkers[j]? = some (some (ImgWorker.failed e))) ∨
      s.chErr ≠ none ∨ s.imgErr ≠ none) :
    (step net s c).cancelFlag = true →
      (∃ (j : Nat), ∃ e, (step net s c).chWorkers[j]? = some (some (ChWorker.failed e))) ∨
      (∃ (j : Nat), ∃ e, (step net s c).imgWorkers[j]? = some (some (ImgWorker.failed e))) ∨
      (step net s c).chErr ≠ none ∨ (step net s c).imgErr ≠ none := by
  intro hf2
  by_cases hf : s.cancelFlag = true
  · rcases h hf with ⟨j, e, hj⟩ | ⟨j, e, hj⟩ | hne | hne
    · clear hf2
      cases c <;> simp only [step] <;> repeat (any_goals split)
      all_goals
        first
        | (exact Or.inl ⟨j, e, hj⟩)
        | (exact Or.inl ⟨j, e, getElemQ_append_left hj _⟩)
        | (exact Or.inr (Or.inr (Or.inl (errOnce_ne_none _ _))))
        | (apply Or.inl
           apply failedCh_set hj
           · assumption
           · intro e2; simp)
    · clear hf2
      cases c <;> simp only [step] <;> repeat (any_goals split)
      all_goals
        first
        | (exact Or.inr (Or.inl ⟨j, e, hj⟩))
        | (exact Or.inr (Or.inl ⟨j, e, getElemQ_append_left hj _⟩))
        | (exact Or.inr (Or.inr (Or.inr (errOnce_ne_none _ _))))
        | (apply Or.inr
           apply Or.inl
           apply failedImg_set hj
           · assumption
           · intro e2; simp)
    · obtain ⟨e, he⟩ := Option.ne_none_iff_exists'.mp hne
      exact Or.inr (Or.inr (Or.inl (by rw [step_chErr_mono net s c he]; simp)))
    · obtain ⟨e, he⟩ := Option.ne_none_iff_exists'.mp hne
      exact Or.inr (Or.inr (Or.inr (by rw [step_imgErr_mono net s c he]; simp)))
  · simp only [Bool.not_eq_true] at hf
    revert hf2
    cases c <;> simp only [step] <;> repeat (any_goals split)
    all_goals intro hf2
    all_goals
      first
      | (simp only [hf] at hf2 ⊢; done)
      | (simp [hf] at hf2; done)
      | (apply Or.inl
         apply failedCh_set_self
         assumption)
      | (apply Or.inr
         apply Or.inl
         apply failedImg_set_self
         assumption)

theorem baseInv_step (net : Net) (s : PipeState) (c : Choice) (inv : BaseInv s) :
    BaseInv (step net s c) := by
  obtain ⟨c1, c2, c3, c4, c5, de, fe, dc, di, b1, b2⟩ := inv
  obtain ⟨g1, g2, g3, g4, g5⟩ := step_clean net s c c1 c2 c3 c4 c5
  exact ⟨g1, g2, g3, g4, g5, step_doneEmpty net s c de, step_flagErr net s c fe,
         step_delivCh net s c dc, step_delivImg net s c di,
         step_boundCh net s c b1, step_boundImg net s c b2⟩

theorem baseInv_init (chapterList : List Chapter) : BaseInv (initState chapterList) := by
  constructor <;> simp [initState, countActive, maxJobsChapter, maxJobsImage]

theorem baseInv_run (net : Net) (cl : List Chapter) (sched : List Choice) :
    BaseInv (run net cl sched) := by
  have h : ∀ s, BaseInv s → BaseInv (sched.foldl (step net) s) := by
    induction sched with
    | nil => intro s h; exact h
    | cons c rest ih => intro s h; exact ih _ (baseInv_step net s c h)
  exact h _ (baseInv_init cl)

theorem foldl_cancelFlag_mono (net : Net) (rest : List Choice) :
    ∀ s : PipeState, s.cancelFlag = true → (rest.foldl (step net) s).cancelFlag = true := by
  induction rest with
  | nil => intro s h; exact h
  | cons c cs ih => intro s h; exact ih _ (step_cancelFlag_mono net s c h)

theorem run_cancelFlag_mono (net : Net) (cl : List Chapter) (sched rest : List Choice)
    (h : (run net cl sched).cancelFlag = true) :
    (run net cl (sched ++ rest)).cancelFlag = true := by
  rw [run, List.foldl_append]
  exact foldl_cancelFlag_mono net rest _ h


/-! ### The all-success invariant -/

theorem countFetchingCh_set {ws : List (Option ChWorker)} {i : Nat} {old : Option ChWorker}
    (h : ws[i]? = some old) (v : Option ChWorker) :
    countFetchingCh (ws.set i v) + countFetchingCh [old]
      = countFetchingCh ws + countFetchingCh [v] := by
  have h2 := sum_map_set (fun o : Option ChWorker => match o with
    | some (ChWorker.fetching _) => 1
    | _ => 0) ws i v old h
  simpa [countFetchingCh] using h2

theorem countFetchingImg_set {ws : List (Option ImgWorker)} {i : Nat} {old : Option ImgWorker}
    (h : ws[i]? = some old) (v : Option ImgWorker) :
    countFetchingImg (ws.set i v) + countFetchingImg [old]
      = countFetchingImg ws + countFetchingImg [v] := by
  have h2 := sum_map_set (fun o : Option ImgWorker => match o with
    | some (ImgWorker.fetching _) => 1
    | _ => 0) ws i v old h
  simpa [countFetchingImg] using h2

theorem chWOut_fetch_swap (pages : Chapter → List PathItem) (bmp : PathItem → Option Bitmap)
    (c2 : Chapter) :
    chWOut pages bmp (if (pages c2).isEmpty then none else some (ChWorker.emitting c2 (pages c2)))
      = chWOut pages bmp (some (ChWorker.fetching c2)) := by
  split
  · rename_i he
    rw [List.isEmpty_iff] at he
    simp [chWOut, chapterImgs, he]
  · simp [chWOut, chapterImgs]

theorem successInv_step (pages : Chapter → List PathItem) (bmp : PathItem → Option Bitmap)
    (chapterList : List Chapter) (s : PipeState) (c : Choice)
    (base : BaseInv s) (inv : SuccessInv pages bmp chapterList s) :
    SuccessInv pages bmp chapterList (step (successNet pages bmp) s c) := by
  obtain ⟨hfl, hacc, hcd, hcc, hpd, hic⟩ := inv
  cases c
  case chDispCancel =>
    simp only [step, hfl]
    rw [if_neg (by simp [hfl])]
    exact ⟨hfl, hacc, hcd, hcc, hpd, hic⟩
  case chDispRecv =>
    simp only [step]
    split
    · rename_i c2 rest hd hp
      refine ⟨hfl, ?_, ?_, ?_, hpd, hic⟩
      · rw [← hacc]
        simp only [outstanding, stage2Out, chDispOut, imgDispOut, chapterImgs, hd, hp,
          List.flatMap_cons, List.map_append]
        refine Multiset.ext.mpr fun a => ?_
        simp only [Multiset.count_add, Multiset.coe_count, List.count_append,
          Multiset.count_zero]
        omega
      · rw [hp] at hcd
        simp at hcd ⊢
        omega
      · rw [hp, hd] at hcc
        simp [dispHold] at hcc ⊢
        omega
    · rename_i hd hp
      refine ⟨hfl, ?_, hcd, ?_, hpd, hic⟩
      · rw [← hacc]
        simp [outstanding, stage2Out, chDispOut, imgDispOut, hd, hp]
      · rw [hd] at hcc
        simp [dispHold] at hcc ⊢
        omega
    · exact ⟨hfl, hacc, hcd, hcc, hpd, hic⟩
  case chSpawn =>
    simp only [step]
    split
    · rename_i c2 hd
      split
      · refine ⟨hfl, ?_, hcd, ?_, hpd, hic⟩
        · rw [← hacc]
          simp only [outstanding, stage2Out, chDispOut, imgDispOut, chapterImgs, hd,
            List.map_append, List.sum_append, chWOut]
          refine Multiset.ext.mpr fun a => ?_
          simp only [chWOut, chapterImgs, Multiset.count_add, Multiset.coe_count,
            List.count_append, Multiset.count_zero, List.map_cons, List.map_nil, List.sum_cons,
            List.sum_nil, add_zero]
          omega
        · rw [hd] at hcc
          simp only [dispHold, countFetchingCh, List.map_append, List.sum_append,
            List.map_cons, List.map_nil, List.sum_cons, List.sum_nil] at hcc ⊢
          omega
      · exact ⟨hfl, hacc, hcd, hcc, hpd, hic⟩
    · exact ⟨hfl, hacc, hcd, hcc, hpd, hic⟩
  case chFetch i =>
    simp only [step]
    split
    · rename_i heq
      rw [if_neg (by simp [hfl])]
      simp only [successNet]
      rename_i c2
      have hs := sum_map_set (chWOut pages bmp) s.chWorkers i
        (if (pages c2).isEmpty then none else some (ChWorker.emitting c2 (pages c2)))
        (some (ChWorker.fetching c2)) heq
      rw [chWOut_fetch_swap] at hs
      have hS := add_right_cancel hs
      have hn := countFetchingCh_set heq
        (if (pages c2).isEmpty then none else some (ChWorker.emitting c2 (pages c2)))
      refine ⟨hfl, ?_, hcd, ?_, hpd, hic⟩
      · rw [← hacc]
        simp only [outstanding, stage2Out, chDispOut, imgDispOut]
        rw [hS]
      · have hz : countFetchingCh
            [if (pages c2).isEmpty then none else some (ChWorker.emitting c2 (pages c2))] = 0 := by
          split <;> simp [countFetchingCh]
        have ho : countFetchingCh [some (ChWorker.fetching c2)] = 1 := by
          simp [countFetchingCh]
        rw [hz, ho] at hn
        dsimp only
        omega
    · exact ⟨hfl, hacc, hcd, hcc, hpd, hic⟩
  case chEmit i =>
    simp only [step]
    split
    · rename_i c2 p rest heq himgd
      refine ⟨hfl, ?_, hcd, ?_, ?_, hic⟩
      · rw [← hacc]
        simp only [outstanding, stage2Out, chDispOut, imgDispOut, himgd]
        refine Multiset.ext.mpr fun a => ?_
        have hs := congrArg (Multiset.count a) (sum_map_set (chWOut pages bmp) s.chWorkers i
          (if rest.isEmpty then none else some (ChWorker.emitting c2 rest)) _ heq)
        have h1 : chWOut pages bmp (some (ChWorker.emitting c2 (p :: rest)))
            = {finImg bmp p} + ((rest.map (finImg bmp) : List ImageItem) : Multiset ImageItem) := by
          simp [chWOut]
        have h2 : chWOut pages bmp (if rest.isEmpty then none else some (ChWorker.emitting c2 rest))
            = ((rest.map (finImg bmp) : List ImageItem) : Multiset ImageItem) := by
          split
          · rename_i he
            rw [List.isEmpty_iff] at he
            simp [chWOut, he]
          · simp [chWOut]
        rw [h1, h2] at hs
        simp only [Multiset.count_add, Multiset.coe_count, Multiset.count_zero] at hs ⊢
        try dsimp only
        omega
      · have hn := countFetchingCh_set heq
          (if rest.isEmpty then none else some (ChWorker.emitting c2 rest))
        have hz1 : countFetchingCh [some (ChWorker.emitting c2 (p :: rest))] = 0 := by
          simp [countFetchingCh]
        have hz2 : countFetchingCh [if rest.isEmpty then none else some (ChWorker.emitting c2 rest)] = 0 := by
          split <;> simp [countFetchingCh]
        rw [hz1, hz2] at hn
        try dsimp only
        omega
      · simp only [stage2Out, imgDispOut, himgd] at hpd ⊢
        try dsimp only
        simp only [Multiset.card_add, Multiset.card_singleton, Multiset.card_zero] at hpd ⊢
        omega
    · exact ⟨hfl, hacc, hcd, hcc, hpd, hic⟩
  case chEmitCancel i =>
    simp only [step]
    rcases hw : s.chWorkers[i]? with _ | w
    · exact ⟨hfl, hacc, hcd, hcc, hpd, hic⟩
    · rcases w with _ | w
      · exact ⟨hfl, hacc, hcd, hcc, hpd, hic⟩
      · rcases w with c2 | ⟨c2, pend⟩ | e
        · exact ⟨hfl, hacc, hcd, hcc, hpd, hic⟩
        · rw [if_neg (by simp [hfl])]
          exact ⟨hfl, hacc, hcd, hcc, hpd, hic⟩
        · exact ⟨hfl, hacc, hcd, hcc, hpd, hic⟩
  case chFail i =>
    simp only [step]
    rcases hw : s.chWorkers[i]? with _ | w
    · exact ⟨hfl, hacc, hcd, hcc, hpd, hic⟩
    · rcases w with _ | w
      · exact ⟨hfl, hacc, hcd, hcc, hpd, hic⟩
      · rcases w with c2 | ⟨c2, pend⟩ | e
        · exact ⟨hfl, hacc, hcd, hcc, hpd, hic⟩
        · exact ⟨hfl, hacc, hcd, hcc, hpd, hic⟩
        · exact absurd hw (base.cleanChW hfl i e)
  case chDeliver =>
    simp only [step]
    split
    · refine ⟨hfl, ?_, hcd, hcc, ?_, hic⟩
      · rw [base.cleanChErr hfl]
        simpa [outstanding, stage2Out, chDispOut, imgDispOut] using hacc
      · rw [base.cleanChErr hfl]
        simpa [stage2Out, imgDispOut] using hpd
    · exact ⟨hfl, hacc, hcd, hcc, hpd, hic⟩
  case imgDispCancel =>
    simp only [step]
    rw [if_neg (by simp [hfl])]
    exact ⟨hfl, hacc, hcd, hcc, hpd, hic⟩
  case imgDispRecv =>
    simp only [step]
    split
    · rename_i hcond
      refine ⟨hfl, ?_, hcd, hcc, ?_, hic⟩
      · rw [← hacc]
        simp [outstanding, stage2Out, chDispOut, imgDispOut, hcond.1]
      · simpa [stage2Out, imgDispOut, hcond.1] using hpd
    · exact ⟨hfl, hacc, hcd, hcc, hpd, hic⟩
  case imgSpawn =>
    simp only [step]
    split
    · rename_i p hd
      split
      · refine ⟨hfl, ?_, hcd, hcc, ?_, hic⟩
        · rw [← hacc]
          simp only [outstanding, stage2Out, chDispOut, imgDispOut, hd, List.map_append,
            List.sum_append, imgWOut, List.map_cons, List.map_nil, List.sum_cons, List.sum_nil,
            add_zero]
          refine Multiset.ext.mpr fun a => ?_
          simp only [Multiset.count_add, Multiset.count_zero]
          omega
        · simp only [stage2Out, imgDispOut, hd, List.map_append, List.sum_append, imgWOut,
            List.map_cons, List.map_nil, List.sum_cons, List.sum_nil, add_zero] at hpd ⊢
          try dsimp only
          simp only [Multiset.card_add, Multiset.card_zero] at hpd ⊢
          omega
      · exact ⟨hfl, hacc, hcd, hcc, hpd, hic⟩
    · exact ⟨hfl, hacc, hcd, hcc, hpd, hic⟩
  case imgFetch i =>
    simp only [step]
    split
    · rename_i p heq
      rw [if_neg (by simp [hfl])]
      simp only [successNet]
      have hs := sum_map_set (imgWOut bmp) s.imgWorkers i
        (some (ImgWorker.emitting p (bmp p))) (some (ImgWorker.fetching p)) heq
      have hswap : imgWOut bmp (some (ImgWorker.emitting p (bmp p)))
          = imgWOut bmp (some (ImgWorker.fetching p)) := by
        simp [imgWOut, finImg]
      rw [hswap] at hs
      have hS := add_right_cancel hs
      refine ⟨hfl, ?_, hcd, hcc, ?_, hic⟩
      · rw [← hacc]
        simp only [outstanding, stage2Out, chDispOut, imgDispOut]
        rw [hS]
      · simp only [stage2Out] at hpd ⊢
        try dsimp only
        rw [hS]
        exact hpd
    · exact ⟨hfl, hacc, hcd, hcc, hpd, hic⟩
  case imgEmit i =>
    simp only [step]
    split
    · rename_i p img heq
      have hs := sum_map_set (imgWOut bmp) s.imgWorkers i none
        (some (ImgWorker.emitting p img)) heq
      refine ⟨hfl, ?_, hcd, hcc, ?_, ?_⟩
      · rw [← hacc]
        simp only [outstanding, stage2Out, chDispOut, imgDispOut]
        refine Multiset.ext.mpr fun a => ?_
        have hsc := congrArg (Multiset.count a) hs
        simp only [imgWOut] at hsc
        rw [show ({p.WithImage img} : Multiset ImageItem)
          = (([p.WithImage img] : List ImageItem) : Multiset ImageItem) from rfl] at hsc
        simp only [Multiset.count_add, Multiset.coe_count, Multiset.count_zero,
          add_zero] at hsc ⊢
        try dsimp only
        simp only [List.count_append]
        omega
      · have hsc := congrArg Multiset.card hs
        simp only [imgWOut, Multiset.card_add, Multiset.card_singleton, Multiset.card_zero,
          add_zero] at hsc
        simp only [stage2Out, Multiset.card_add] at hpd ⊢
        try dsimp only
        simp only [Multiset.card_add, List.length_append, List.length_cons, List.length_nil]
        omega
      · try dsimp only
        simp only [List.length_append, List.length_cons, List.length_nil]
        omega
    · exact ⟨hfl, hacc, hcd, hcc, hpd, hic⟩
  case imgEmitCancel i =>
    simp only [step]
    rcases hw : s.imgWorkers[i]? with _ | w
    · exact ⟨hfl, hacc, hcd, hcc, hpd, hic⟩
    · rcases w with _ | w
      · exact ⟨hfl, hacc, hcd, hcc, hpd, hic⟩
      · rcases w with p | ⟨p, img⟩ | e
        · exact ⟨hfl, hacc, hcd, hcc, hpd, hic⟩
        · rw [if_neg (by simp [hfl])]
          exact ⟨hfl, hacc, hcd, hcc, hpd, hic⟩
        · exact ⟨hfl, hacc, hcd, hcc, hpd, hic⟩
  case imgFail i =>
    simp only [step]
    rcases hw : s.imgWorkers[i]? with _ | w
    · exact ⟨hfl, hacc, hcd, hcc, hpd, hic⟩
    · rcases w with _ | w
      · exact ⟨hfl, hacc, hcd, hcc, hpd, hic⟩
      · rcases w with p | ⟨p, img⟩ | e
        · exact ⟨hfl, hacc, hcd, hcc, hpd, hic⟩
        · exact ⟨hfl, hacc, hcd, hcc, hpd, hic⟩
        · exact absurd hw (base.cleanImgW hfl i e)
  case imgDeliver =>
    simp only [step]
    split
    · refine ⟨hfl, ?_, hcd, hcc, ?_, hic⟩
      · rw [base.cleanImgErr hfl]
        simpa [outstanding, stage2Out, chDispOut, imgDispOut] using hacc
      · rw [base.cleanImgErr hfl]
        simpa [stage2Out, imgDispOut] using hpd
    · exact ⟨hfl, hacc, hcd, hcc, hpd, hic⟩

theorem successInv_init (pages : Chapter → List PathItem) (bmp : PathItem → Option Bitmap)
    (chapterList : List Chapter) :
    SuccessInv pages bmp chapterList (initState chapterList) := by
  refine ⟨rfl, ?_, ?_, ?_, ?_, rfl⟩
  · simp [outstanding, initState, stage2Out, chDispOut, imgDispOut, expectedImgs]
  · simp [initState]
  · simp [initState, dispHold, countFetchingCh]
  · simp [initState, stage2Out, imgDispOut]

theorem successInv_run (pages : Chapter → List PathItem) (bmp : PathItem → Option Bitmap)
    (chapterList : List Chapter) (sched : List Choice) :
    SuccessInv pages bmp chapterList (run (successNet pages bmp) chapterList sched) := by
  have h : ∀ s, BaseInv s → SuccessInv pages bmp chapterList s →
      SuccessInv pages bmp chapterList (sched.foldl (step (successNet pages bmp)) s) := by
    induction sched with
    | nil => intro s _ hs; exact hs
    | cons c cs ih =>
      intro s hb hs
      exact ih _ (baseInv_step _ s c hb) (successInv_step pages bmp chapterList s c hb hs)
  exact h _ (baseInv_init chapterList) (successInv_init pages bmp chapterList)


theorem chWOut_sum_zero (pages : Chapter → List PathItem) (bmp : PathItem → Option Bitmap)
    {ws : List (Option ChWorker)} (h : countActive ws = 0) :
    (ws.map (chWOut pages bmp)).sum = 0 := by
  apply List.sum_eq_zero
  intro x hx
  obtain ⟨o, ho, rfl⟩ := List.mem_map.mp hx
  rw [countActive_eq_zero h o ho]
  rfl

theorem imgWOut_sum_zero (bmp : PathItem → Option Bitmap)
    {ws : List (Option ImgWorker)} (h : countActive ws = 0) :
    (ws.map (imgWOut bmp)).sum = 0 := by
  apply List.sum_eq_zero
  intro x hx
  obtain ⟨o, ho, rfl⟩ := List.mem_map.mp hx
  rw [countActive_eq_zero h o ho]
  rfl

theorem countFetchingCh_zero {ws : List (Option ChWorker)} (h : countActive ws = 0) :
    countFetchingCh ws = 0 := by
  apply List.sum_eq_zero
  intro x hx
  obtain ⟨o, ho, rfl⟩ := List.mem_map.mp hx
  rw [countActive_eq_zero h o ho]

theorem successInv_finished (pages : Chapter → List PathItem) (bmp : PathItem → Option Bitmap)
    (chapterList : List Chapter) (s : PipeState)
    (base : BaseInv s) (inv : SuccessInv pages bmp chapterList s) (hf : finished s) :
    ((s.results : Multiset ImageItem) = expectedImgs pages bmp chapterList) ∧
    s.outerErr = none ∧
    s.chDiscovered = chapterList.length ∧
    s.chCompleted = chapterList.length ∧
    s.pageDiscovered = (chapterList.flatMap pages).length ∧
    s.imgCompleted = (chapterList.flatMap pages).length := by
  obtain ⟨⟨hcd1, hcw0⟩, ⟨hid1, hiw0⟩, _, _⟩ := hf
  have hpend : s.chaptersPending = [] := by
    rcases base.doneEmpty hcd1 with h | h
    · exact h
    · exact absurd (base.cleanChErr inv.flag) h
  have hchsum := chWOut_sum_zero pages bmp hcw0
  have himgsum := imgWOut_sum_zero bmp hiw0
  have hst2 : stage2Out bmp s = 0 := by
    simp [stage2Out, hid1, imgDispOut, himgsum]
  have hout : outstanding pages bmp s = 0 := by
    simp [outstanding, hpend, hcd1, chDispOut, hchsum, hst2]
  have hres := inv.acct
  rw [hout, zero_add] at hres
  have hlen : s.results.length = (chapterList.flatMap pages).length := by
    have h2 := congrArg Multiset.card hres
    simpa [expectedImgs] using h2
  refine ⟨hres, base.cleanOuterErr inv.flag, ?_, ?_, ?_, ?_⟩
  · have h2 := inv.cDisc
    rw [hpend] at h2
    simpa using h2
  · have h2 := inv.cComp
    rw [hpend, hcd1, countFetchingCh_zero hcw0] at h2
    simpa [dispHold] using h2
  · have h2 := inv.pDisc
    rw [hst2, hlen] at h2
    simpa using h2
  · rw [inv.iComp, hlen]


/-- C1 -/
theorem C1_mangadexPages_success_provenance
    (pages : Chapter → List PathItem) (bmp : PathItem → Option Bitmap)
    (chapterList : List Chapter) (sched : List Choice)
    (hfin : finished (run (successNet pages bmp) chapterList sched)) :
    MangadexPagesReturn (run (successNet pages bmp) chapterList sched)
      = Except.ok (run (successNet pages bmp) chapterList sched).results ∧
    (((run (successNet pages bmp) chapterList sched).results : Multiset ImageItem)
      = expectedImgs pages bmp chapterList) ∧
    (∀ (p : PathItem) (img : Option Bitmap),
      (p.WithImage img).chapterID = p.chapterID ∧
      (p.WithImage img).volumeID = p.volumeID ∧
      (p.WithImage img).imageID = p.imageID) := by
  obtain ⟨hres, houter, _, _, _, _⟩ :=
    successInv_finished pages bmp chapterList _
      (baseInv_run (successNet pages bmp) chapterList sched)
      (successInv_run pages bmp chapterList sched) hfin
  refine ⟨?_, hres, fun p img => ⟨rfl, rfl, rfl⟩⟩
  simp [MangadexPagesReturn, houter]

theorem C1_witness :
    finished (run (successNet (fun _ => [⟨"u", 5, 3, 7⟩]) (fun _ => some 9)) [exC1] exSchedSmall)
    ∧ MangadexPagesReturn
        (run (successNet (fun _ => [⟨"u", 5, 3, 7⟩]) (fun _ => some 9)) [exC1] exSchedSmall)
      = Except.ok
        (run (successNet (fun _ => [⟨"u", 5, 3, 7⟩]) (fun _ => some 9)) [exC1] exSchedSmall).results :=
  ⟨by decide,
   (C1_mangadexPages_success_provenance (fun _ => [⟨"u", 5, 3, 7⟩]) (fun _ => some 9)
     [exC1] exSchedSmall (by decide)).1⟩

/-- C4 counterexample -/
theorem C4_counterexample :
    finished (run (successNet exPages exBmp) [exC1, exC2] exSchedFull) ∧
    (run (successNet exPages exBmp) [exC1, exC2] exSchedFull).chDiscovered = 2 ∧
    (run (successNet exPages exBmp) [exC1, exC2] exSchedFull).pageDiscovered = 5 ∧
    (run (successNet exPages exBmp) [exC1, exC2] exSchedFull).results.length = 5 ∧
    (run (successNet exPages exBmp) [exC1, exC2] exSchedFull).chCompleted
      + (run (successNet exPages exBmp) [exC1, exC2] exSchedFull).imgCompleted = 7 := by
  refine ⟨by decide, by decide, by decide, by decide, by decide⟩

/-- C4 amended -/
theorem C4_amended_progress
    (pages : Chapter → List PathItem) (bmp : PathItem → Option Bitmap)
    (chapterList : List Chapter) (sched : List Choice)
    (hfin : finished (run (successNet pages bmp) chapterList sched)) :
    (run (successNet pages bmp) chapterList sched).chDiscovered = chapterList.length ∧
    (run (successNet pages bmp) chapterList sched).chCompleted = chapterList.length ∧
    (run (successNet pages bmp) chapterList sched).pageDiscovered
      = (chapterList.flatMap pages).length ∧
    (run (successNet pages bmp) chapterList sched).imgCompleted
      = (chapterList.flatMap pages).length := by
  obtain ⟨_, _, h1, h2, h3, h4⟩ :=
    successInv_finished pages bmp chapterList _
      (baseInv_run (successNet pages bmp) chapterList sched)
      (successInv_run pages bmp chapterList sched) hfin
  exact ⟨h1, h2, h3, h4⟩

theorem C4_witness :
    finished (run (successNet exPages exBmp) [exC1, exC2] exSchedFull) ∧
    (run (successNet exPages exBmp) [exC1, exC2] exSchedFull).chDiscovered = 2 ∧
    (run (successNet exPages exBmp) [exC1, exC2] exSchedFull).chCompleted = 2 ∧
    (run (successNet exPages exBmp) [exC1, exC2] exSchedFull).pageDiscovered = 5 ∧
    (run (successNet exPages exBmp) [exC1, exC2] exSchedFull).imgCompleted = 5 := by
  have h := C4_amended_progress exPages exBmp [exC1, exC2] exSchedFull (by decide)
  exact ⟨by decide, by simpa using h.1, by simpa using h.2.1,
    by simpa [exPages, exC1, exC2] using h.2.2.1, by simpa [exPages, exC1, exC2] using h.2.2.2⟩


theorem countFetchingCh_le_active (ws : List (Option ChWorker)) :
    countFetchingCh ws ≤ countActive ws := by
  induction ws with
  | nil => simp [countFetchingCh, countActive]
  | cons o os ih =>
    simp only [countFetchingCh, countActive, List.map_cons, List.sum_cons] at ih ⊢
    rcases o with _ | w
    · simp
      omega
    · rcases w <;> simp <;> omega

theorem countFetchingImg_le_active (ws : List (Option ImgWorker)) :
    countFetchingImg ws ≤ countActive ws := by
  induction ws with
  | nil => simp [countFetchingImg, countActive]
  | cons o os ih =>
    simp only [countFetchingImg, countActive, List.map_cons, List.sum_cons] at ih ⊢
    rcases o with _ | w
    · simp
      omega
    · rcases w <;> simp <;> omega

/-- C7 -/
theorem C7_concurrency_bounds (net : Net) (chapterList : List Chapter) (sched : List Choice) :
    maxJobsChapter = 8 ∧ maxJobsImage = 16 ∧
    countFetchingCh (run net chapterList sched).chWorkers ≤ maxJobsChapter ∧
    countFetchingImg (run net chapterList sched).imgWorkers ≤ maxJobsImage ∧
    countActive (run net chapterList sched).chWorkers ≤ maxJobsChapter ∧
    countActive (run net chapterList sched).imgWorkers ≤ maxJobsImage := by
  have hb := baseInv_run net chapterList sched
  exact ⟨rfl, rfl, le_trans (countFetchingCh_le_active _) hb.boundCh,
    le_trans (countFetchingImg_le_active _) hb.boundImg, hb.boundCh, hb.boundImg⟩

theorem startsNetwork_false_of_canceled (s : PipeState) (c : Choice)
    (h : s.cancelFlag = true) : startsNetwork s c = false := by
  cases c <;> simp only [startsNetwork] <;> (repeat (any_goals split)) <;> simp [h]

/-- C8 counterexample -/
theorem C8_counterexample :
    (run exNetRace [exC1, exC2] exSchedRace).cancelFlag = true ∧
    (run exNetRace [exC1, exC2] exSchedRace).imgWorkers[0]?
      = some (some (ImgWorker.emitting ⟨"r1", 4, 1, 10⟩ (some 4))) ∧
    (step exNetRace (run exNetRace [exC1, exC2] exSchedRace) (Choice.imgEmit 0)).results
      = (run exNetRace [exC1, exC2] exSchedRace).results ++ [⟨some 4, 4, 1, 10⟩] ∧
    (step exNetRace (run exNetRace [exC1, exC2] exSchedRace) (Choice.imgEmit 0)).imgErr
      = (run exNetRace [exC1, exC2] exSchedRace).imgErr := by
  refine ⟨by decide, by decide, by decide, by decide⟩

/-- C8 amended -/
theorem C8_amended_cancellation (net : Net) (chapterList : List Chapter)
    (sched rest : List Choice) (c : Choice)
    (h : (run net chapterList sched).cancelFlag = true) :
    (run net chapterList (sched ++ rest)).cancelFlag = true ∧
    startsNetwork (run net chapterList sched) c = false :=
  ⟨run_cancelFlag_mono net chapterList sched rest h,
   startsNetwork_false_of_canceled _ c h⟩

theorem C8_witness :
    (run exNetRace [exC1, exC2] exSchedRace).cancelFlag = true ∧
    (run exNetRace [exC1, exC2] (exSchedRace ++ [Choice.imgEmitCancel 0])).cancelFlag = true ∧
    startsNetwork (run exNetRace [exC1, exC2] exSchedRace) (Choice.imgFetch 0) = false :=
  ⟨by decide,
   (C8_amended_cancellation exNetRace [exC1, exC2] exSchedRace [Choice.imgEmitCancel 0]
     (Choice.imgFetch 0) (by decide)).1,
   (C8_amended_cancellation exNetRace [exC1, exC2] exSchedRace [Choice.imgEmitCancel 0]
     (Choice.imgFetch 0) (by decide)).2⟩

/-- C3 counterexample -/
theorem C3_counterexample :
    finished (run exNetFail [exC1] exSchedFail) ∧
    MangadexPagesReturn (run exNetFail [exC1] exSchedFail) = Except.error Err.canceled := by
  refine ⟨by decide, by decide⟩

/-- C3 amended -/
theorem C3_amended_error_reporting (net : Net) (chapterList : List Chapter)
    (sched : List Choice) :
    ((run net chapterList sched).cancelFlag = false →
      MangadexPagesReturn (run net chapterList sched)
        = Except.ok (run net chapterList sched).results) ∧
    (∀ e, MangadexPagesReturn (run net chapterList sched) = Except.error e →
      (run net chapterList sched).cancelFlag = true) := by
  have hb := baseInv_run net chapterList sched
  constructor
  · intro hf
    simp [MangadexPagesReturn, hb.cleanOuterErr hf]
  · intro e he
    by_cases hf : (run net chapterList sched).cancelFlag = true
    · exact hf
    · simp only [Bool.not_eq_true] at hf
      rw [MangadexPagesReturn, hb.cleanOuterErr hf] at he
      cases he

theorem C3_witness :
    (run exNetFail [exC1] []).cancelFlag = false ∧
    MangadexPagesReturn (run exNetFail [exC1] [])
      = Except.ok (run exNetFail [exC1] []).results :=
  ⟨by decide, (C3_amended_error_reporting exNetFail [exC1] []).1 (by decide)⟩

/-- C2 counterexample -/
theorem C2_counterexample :
    getImageAttempts quirkFetch 0 = 12 ∧
    getImage quirkFetch 0 = Except.ok none ∧
    (∀ e, getImage quirkFetch 0 ≠ Except.error e) := by
  refine ⟨getImageAttempts_quirkFetch, getImage_quirkFetch, ?_⟩
  intro e h
  rw [getImage_quirkFetch] at h
  cases h

/-- C2 amended -/
theorem C2_amended_retry_budget (fetch : Nat → Attempt) :
    getImageAttempts fetch 0 ≤ 12 ∧
    ((∀ t, fetch t = Attempt.response 200 none none) → getImage fetch 0 = Except.ok none) := by
  constructor
  · have h := getImageAttempts_le fetch 0
    omega
  · intro h
    exact getImage_quirk_persistent fetch h 0

theorem C2_witness :
    getImageAttempts quirkFetch 0 ≤ 12 ∧ getImage quirkFetch 0 = Except.ok none :=
  ⟨(C2_amended_retry_budget quirkFetch).1,
   (C2_amended_retry_budget quirkFetch).2 (fun _ => rfl)⟩

/-- C9 -/
theorem C9_mangadexCovers_double_length (covers : List PathItem) (arrived : List ImageItem)
    (h : arrived.length = covers.length) :
    (MangadexCoversResults covers arrived).length = 2 * covers.length ∧
    (MangadexCoversResults covers arrived)
      = List.replicate covers.length zeroImageItem ++ arrived ∧
    ∀ i : Nat, i < covers.length →
      (MangadexCoversResults covers arrived)[i]? = some zeroImageItem := by
  unfold MangadexCoversResults
  rw [coversCollect_eq]
  refine ⟨?_, rfl, ?_⟩
  · simp [h]
    omega
  · intro i hi
    rw [List.getElem?_append_left (by simpa using hi)]
    simp [List.getElem?_replicate, hi]

theorem C9_witness :
    (MangadexCoversResults [⟨"c1", 1, 2, 3⟩, ⟨"c2", 2, 2, 3⟩]
        [⟨some 1, 1, 2, 3⟩, ⟨some 2, 2, 2, 3⟩]).length = 4 ∧
    (MangadexCoversResults [⟨"c1", 1, 2, 3⟩, ⟨"c2", 2, 2, 3⟩]
        [⟨some 1, 1, 2, 3⟩, ⟨some 2, 2, 2, 3⟩])[0]? = some zeroImageItem := by
  have h := C9_mangadexCovers_double_length [⟨"c1", 1, 2, 3⟩, ⟨"c2", 2, 2, 3⟩]
    [⟨some 1, 1, 2, 3⟩, ⟨some 2, 2, 2, 3⟩] (by decide)
  exact ⟨h.1, h.2.2 0 (by decide)⟩

/-- C10 -/
theorem C10_quirk_null_image_emitted :
    getImage quirkFetch 0 = Except.ok none ∧
    MangadexPagesReturn (run exNetQuirk [exC1] exSchedSmall)
      = Except.ok [⟨none, 7, 4, 2⟩] := by
  refine ⟨getImage_quirkFetch, ?_⟩
  have h : exNetQuirk
      = Net.mk (fun _ => Except.ok [⟨"q", 7, 4, 2⟩]) (fun _ => Except.ok none) := by
    unfold exNetQuirk
    congr 1
    funext p
    exact getImage_quirkFetch
  rw [h]
  decide


theorem cleanPend_set (cid : MdId) {ws : List (Option ChWorker)}
    (h : ∀ (j : Nat) (c : Chapter) (pend : List PathItem),
      ws[j]? = some (some (ChWorker.emitting c pend)) → ∀ p ∈ pend, p.chapterID ≠ cid)
    (i : Nat) {v : Option ChWorker}
    (hv : ∀ (c : Chapter) (pend : List PathItem),
      v = some (ChWorker.emitting c pend) → ∀ p ∈ pend, p.chapterID ≠ cid) :
    ∀ (j : Nat) (c : Chapter) (pend : List PathItem),
      (ws.set i v)[j]? = some (some (ChWorker.emitting c pend)) → ∀ p ∈ pend, p.chapterID ≠ cid := by
  intro j c pend hj
  rw [List.getElem?_set] at hj
  split at hj
  · split at hj
    · injection hj with hj
      exact hv c pend hj
    · cases hj
  · exact h j c pend hj

theorem cleanImgW_set (cid : MdId) {ws : List (Option ImgWorker)}
    (h : ∀ (j : Nat) (w : ImgWorker), ws[j]? = some (some w) →
      (∀ (p : PathItem), w = ImgWorker.fetching p → p.chapterID ≠ cid) ∧
      (∀ (p : PathItem) (img : Option Bitmap), w = ImgWorker.emitting p img → p.chapterID ≠ cid))
    (i : Nat) {v : Option ImgWorker}
    (hv : ∀ (w : ImgWorker), v = some w →
      (∀ (p : PathItem), w = ImgWorker.fetching p → p.chapterID ≠ cid) ∧
      (∀ (p : PathItem) (img : Option Bitmap), w = ImgWorker.emitting p img → p.chapterID ≠ cid)) :
    ∀ (j : Nat) (w : ImgWorker), (ws.set i v)[j]? = some (some w) →
      (∀ (p : PathItem), w = ImgWorker.fetching p → p.chapterID ≠ cid) ∧
      (∀ (p : PathItem) (img : Option Bitmap), w = ImgWorker.emitting p img → p.chapterID ≠ cid) := by
  intro j w hj
  rw [List.getElem?_set] at hj
  split at hj
  · split at hj
    · injection hj with hj
      exact hv w hj
    · cases hj
  · exact h j w hj

theorem cleanImgW_append (cid : MdId) {ws : List (Option ImgWorker)}
    (h : ∀ (j : Nat) (w : ImgWorker), ws[j]? = some (some w) →
      (∀ (p : PathItem), w = ImgWorker.fetching p → p.chapterID ≠ cid) ∧
      (∀ (p : PathItem) (img : Option Bitmap), w = ImgWorker.emitting p img → p.chapterID ≠ cid))
    {v : Option ImgWorker}
    (hv : ∀ (w : ImgWorker), v = some w →
      (∀ (p : PathItem), w = ImgWorker.fetching p → p.chapterID ≠ cid) ∧
      (∀ (p : PathItem) (img : Option Bitmap), w = ImgWorker.emitting p img → p.chapterID ≠ cid)) :
    ∀ (j : Nat) (w : ImgWorker), (ws ++ [v])[j]? = some (some w) →
      (∀ (p : PathItem), w = ImgWorker.fetching p → p.chapterID ≠ cid) ∧
      (∀ (p : PathItem) (img : Option Bitmap), w = ImgWorker.emitting p img → p.chapterID ≠ cid) := by
  intro j w hj
  rw [List.getElem?_append] at hj
  split at hj
  · exact h j w hj
  · rcases hk : j - ws.length with _ | k <;> rw [hk] at hj <;> simp at hj
    exact hv w hj

theorem liveCh_set_ne {s : PipeState} {cid : MdId} (i : Nat) {u : Option ChWorker}
    (hu : s.chWorkers[i]? = some u)
    (hu2 : ∀ c, u ≠ some (ChWorker.fetching c)) (hu3 : ∀ e, u ≠ some (ChWorker.failed e))
    (v : Option ChWorker)
    (hLive : (∃ c ∈ s.chaptersPending, c.Info.Identifier = cid) ∨
      (∃ c, s.chDisp = DispSt.holding c ∧ c.Info.Identifier = cid) ∨
      (∃ (j : Nat), ∃ c, s.chWorkers[j]? = some (some (ChWorker.fetching c))
        ∧ c.Info.Identifier = cid) ∨
      (∃ (j : Nat), ∃ e, s.chWorkers[j]? = some (some (ChWorker.failed e))) ∨
      s.chErr ≠ none) :
    (∃ c ∈ s.chaptersPending, c.Info.Identifier = cid) ∨
      (∃ c, s.chDisp = DispSt.holding c ∧ c.Info.Identifier = cid) ∨
      (∃ (j : Nat), ∃ c, (s.chWorkers.set i v)[j]? = some (some (ChWorker.fetching c))
        ∧ c.Info.Identifier = cid) ∨
      (∃ (j : Nat), ∃ e, (s.chWorkers.set i v)[j]? = some (some (ChWorker.failed e))) ∨
      s.chErr ≠ none := by
  rcases hLive with h | h | ⟨j, c, hj, hcid⟩ | ⟨j, e, hj⟩ | h
  · exact Or.inl h
  · exact Or.inr (Or.inl h)
  · have hij : i ≠ j := by
      rintro rfl
      rw [hu] at hj
      injection hj with hj
      exact hu2 c hj
    exact Or.inr (Or.inr (Or.inl ⟨j, c, by rw [List.getElem?_set_ne hij]; exact hj, hcid⟩))
  · have hij : i ≠ j := by
      rintro rfl
      rw [hu] at hj
      injection hj with hj
      exact hu3 e hj
    exact Or.inr (Or.inr (Or.inr (Or.inl ⟨j, e, by rw [List.getElem?_set_ne hij]; exact hj⟩)))
  · exact Or.inr (Or.inr (Or.inr (Or.inr h)))

theorem manifestFailInv_step (net : Net) (cid : MdId) (s : PipeState) (c : Choice)
    (HF : ∀ c2 : Chapter, c2.Info.Identifier = cid → ∀ l, net.fetchPaths c2 ≠ Except.ok l)
    (inv : ManifestFailInv net cid s)
    (HP : ∀ c2 l, net.fetchPaths c2 = Except.ok l → ∀ p ∈ l, p.chapterID = c2.Info.Identifier) :
    ManifestFailInv net cid (step net s c) := by
  obtain ⟨hPend, hHold, hImgW, hRes, hLive⟩ := inv
  cases c
  case chDispCancel =>
    simp only [step]
    split
    · exact ⟨hPend, hHold, hImgW, hRes, Or.inr (Or.inr (Or.inr (Or.inr (errOnce_ne_none _ _))))⟩
    · exact ⟨hPend, hHold, hImgW, hRes, hLive⟩
  case chDispRecv =>
    simp only [step]
    split
    · rename_i c2 rest hd hp
      refine ⟨hPend, hHold, hImgW, hRes, ?_⟩
      rcases hLive with ⟨c3, hc3, hcid⟩ | ⟨c3, hc3, hcid⟩ | h | h | h
      · rw [hp] at hc3
        rcases List.mem_cons.mp hc3 with rfl | hc3
        · exact Or.inr (Or.inl ⟨c3, rfl, hcid⟩)
        · exact Or.inl ⟨c3, hc3, hcid⟩
      · rw [hd] at hc3; cases hc3
      · exact Or.inr (Or.inr (Or.inl h))
      · exact Or.inr (Or.inr (Or.inr (Or.inl h)))
      · exact Or.inr (Or.inr (Or.inr (Or.inr h)))
    · rename_i hd hp
      refine ⟨hPend, hHold, hImgW, hRes, ?_⟩
      rcases hLive with ⟨c3, hc3, hcid⟩ | ⟨c3, hc3, hcid⟩ | h | h | h
      · rw [hp] at hc3; cases hc3
      · rw [hd] at hc3; cases hc3
      · exact Or.inr (Or.inr (Or.inl h))
      · exact Or.inr (Or.inr (Or.inr (Or.inl h)))
      · exact Or.inr (Or.inr (Or.inr (Or.inr h)))
    · exact ⟨hPend, hHold, hImgW, hRes, hLive⟩
  case chSpawn =>
    simp only [step]
    split
    · rename_i c2 hd
      split
      · refine ⟨?_, hHold, hImgW, hRes, ?_⟩
        · intro j c3 pend hj p hp
          rw [List.getElem?_append] at hj
          split at hj
          · exact hPend j c3 pend hj p hp
          · rcases hk : j - s.chWorkers.length with _ | k <;> rw [hk] at hj <;> simp at hj
        · rcases hLive with ⟨c3, hc3, hcid⟩ | ⟨c3, hc3, hcid⟩ | ⟨j, c3, hj, hcid⟩ | ⟨j, e, hj⟩ | h
          · exact Or.inl ⟨c3, hc3, hcid⟩
          · rw [hd] at hc3
            injection hc3 with hc3
            subst hc3
            refine Or.inr (Or.inr (Or.inl ⟨s.chWorkers.length, c2, ?_, hcid⟩))
            exact List.getElem?_concat_length _ _
          · exact Or.inr (Or.inr (Or.inl ⟨j, c3, getElemQ_append_left hj _, hcid⟩))
          · exact Or.inr (Or.inr (Or.inr (Or.inl ⟨j, e, getElemQ_append_left hj _⟩)))
          · exact Or.inr (Or.inr (Or.inr (Or.inr h)))
      · exact ⟨hPend, hHold, hImgW, hRes, hLive⟩
    · exact ⟨hPend, hHold, hImgW, hRes, hLive⟩
  case chFetch i =>
    simp only [step]
    split
    · rename_i c2 heq
      have hnotfail : ∀ (v : Option ChWorker),
          (∀ c3 pend, v = some (ChWorker.emitting c3 pend) → ∀ p ∈ pend, p.chapterID ≠ cid) →
          (∀ (j : Nat) (c3 : Chapter) (pend : List PathItem),
            (s.chWorkers.set i v)[j]? = some (some (ChWorker.emitting c3 pend)) →
            ∀ p ∈ pend, p.chapterID ≠ cid) := by
        intro v hv j c3 pend hj p hp
        rw [List.getElem?_set] at hj
        split at hj
        · split at hj
          · injection hj with hj
            exact hv c3 pend hj p hp
          · cases hj
        · exact hPend j c3 pend hj p hp
      have hliveFail : ∀ (e : Err),
          (∃ (j : Nat), ∃ e2, (s.chWorkers.set i (some (ChWorker.failed e)))[j]?
            = some (some (ChWorker.failed e2))) := by
        intro e
        refine ⟨i, e, ?_⟩
        simp [List.getElem?_set, (List.getElem?_eq_some.mp heq).1]
      split
      · -- cancelFlag = true: worker fails with ctx error
        refine ⟨hnotfail _ (by intro c3 pend h; cases h), hHold, hImgW, hRes, ?_⟩
        exact Or.inr (Or.inr (Or.inr (Or.inl (hliveFail _))))
      · split
        · -- fetchPaths error
          refine ⟨hnotfail _ (by intro c3 pend h; cases h), hHold, hImgW, hRes, ?_⟩
          exact Or.inr (Or.inr (Or.inr (Or.inl (hliveFail _))))
        · -- fetchPaths ok
          rename_i paths hok
          have hc2 : c2.Info.Identifier ≠ cid := by
            intro hcid2
            exact HF c2 hcid2 paths hok
          refine ⟨?_, hHold, hImgW, hRes, ?_⟩
          · apply hnotfail
            intro c3 pend h
            split at h
            · cases h
            · injection h with h
              injection h with h1 h2
              subst h1
              subst h2
              intro p hp hpc
              apply hc2
              rw [← HP c2 paths hok p hp]
              exact hpc
          · rcases hLive with ⟨c3, hc3, hcid⟩ | ⟨c3, hc3, hcid⟩ | ⟨j, c3, hj, hcid⟩ | ⟨j, e, hj⟩ | h
            · exact Or.inl ⟨c3, hc3, hcid⟩
            · exact Or.inr (Or.inl ⟨c3, hc3, hcid⟩)
            · have hij : i ≠ j := by
                rintro rfl
                rw [heq] at hj
                injection hj with hj
                injection hj with hj
                injection hj with hj
                rw [hj] at hc2
                exact hc2 hcid
              exact Or.inr (Or.inr (Or.inl ⟨j, c3, by rw [List.getElem?_set_ne hij]; exact hj, hcid⟩))
            · have hij : i ≠ j := by
                rintro rfl
                rw [heq] at hj
                injection hj with hj
                injection hj with hj
                exact ChWorker.noConfusion hj
              exact Or.inr (Or.inr (Or.inr (Or.inl ⟨j, e, by rw [List.getElem?_set_ne hij]; exact hj⟩)))
            · exact Or.inr (Or.inr (Or.inr (Or.inr h)))
    · exact ⟨hPend, hHold, hImgW, hRes, hLive⟩
  case chEmit i =>
    simp only [step]
    split
    · rename_i c2 p rest heq hd
      have hold : ∀ q ∈ p :: rest, q.chapterID ≠ cid := hPend i c2 (p :: rest) heq
      refine ⟨?_, ?_, hImgW, hRes, ?_⟩
      · apply cleanPend_set cid hPend
        intro c3 pend h
        split at h
        · cases h
        · injection h with h
          injection h with h1 h2
          subst h2
          intro q hq
          exact hold q (List.mem_cons_of_mem p hq)
      · intro q hq
        injection hq with hq
        subst hq
        exact hold p (List.mem_cons_self p rest)
      · exact liveCh_set_ne i heq (by intro c3 h; cases h) (by intro e h; cases h) _ hLive
    · exact ⟨hPend, hHold, hImgW, hRes, hLive⟩
  case chEmitCancel i =>
    simp only [step]
    split
    · split
      · rename_i heq hf
        refine ⟨cleanPend_set cid hPend i (by intro c3 pend h; cases h), hHold, hImgW, hRes, ?_⟩
        exact Or.inr (Or.inr (Or.inr (Or.inr (errOnce_ne_none _ _))))
      · exact ⟨hPend, hHold, hImgW, hRes, hLive⟩
    · exact ⟨hPend, hHold, hImgW, hRes, hLive⟩
  case chFail i =>
    simp only [step]
    split
    · refine ⟨cleanPend_set cid hPend i (by intro c3 pend h; cases h), hHold, hImgW, hRes, ?_⟩
      exact Or.inr (Or.inr (Or.inr (Or.inr (errOnce_ne_none _ _))))
    · exact ⟨hPend, hHold, hImgW, hRes, hLive⟩
  case chDeliver =>
    simp only [step]
    split
    · exact ⟨hPend, hHold, hImgW, hRes, hLive⟩
    · exact ⟨hPend, hHold, hImgW, hRes, hLive⟩
  case imgDispCancel =>
    simp only [step]
    split
    · exact ⟨hPend, (by intro p h; cases h), hImgW, hRes, hLive⟩
    · exact ⟨hPend, hHold, hImgW, hRes, hLive⟩
  case imgDispRecv =>
    simp only [step]
    split
    · exact ⟨hPend, (by intro p h; cases h), hImgW, hRes, hLive⟩
    · exact ⟨hPend, hHold, hImgW, hRes, hLive⟩
  case imgSpawn =>
    simp only [step]
    split
    · rename_i p hd
      split
      · have hp : p.chapterID ≠ cid := hHold p hd
        refine ⟨hPend, (by intro q h; cases h), ?_, hRes, hLive⟩
        apply cleanImgW_append cid hImgW
        intro w h
        injection h with h
        subst h
        constructor
        · intro q h
          injection h with h
          subst h
          exact hp
        · intro q img h
          cases h
      · exact ⟨hPend, hHold, hImgW, hRes, hLive⟩
    · exact ⟨hPend, hHold, hImgW, hRes, hLive⟩
  case imgFetch i =>
    simp only [step]
    split
    · rename_i p heq
      have hp : p.chapterID ≠ cid := (hImgW i _ heq).1 p rfl
      split
      · refine ⟨hPend, hHold, ?_, hRes, hLive⟩
        apply cleanImgW_set cid hImgW
        intro w h
        injection h with h
        subst h
        exact ⟨(by intro q h; cases h), (by intro q img h; cases h)⟩
      · split
        · refine ⟨hPend, hHold, ?_, hRes, hLive⟩
          apply cleanImgW_set cid hImgW
          intro w h
          injection h with h
          subst h
          exact ⟨(by intro q h; cases h), (by intro q img h; cases h)⟩
        · refine ⟨hPend, hHold, ?_, hRes, hLive⟩
          apply cleanImgW_set cid hImgW
          intro w h
          injection h with h
          subst h
          constructor
          · intro q h
            cases h
          · intro q img h
            injection h with h1 h2
            subst h1
            exact hp
    · exact ⟨hPend, hHold, hImgW, hRes, hLive⟩
  case imgEmit i =>
    simp only [step]
    split
    · rename_i p img heq
      have hp : p.chapterID ≠ cid := (hImgW i _ heq).2 p img rfl
      refine ⟨hPend, hHold, ?_, ?_, hLive⟩
      · apply cleanImgW_set cid hImgW
        intro w h
        cases h
      · intro it hit
        rcases List.mem_append.mp hit with h | h
        · exact hRes it h
        · simp at h
          subst h
          exact hp
    · exact ⟨hPend, hHold, hImgW, hRes, hLive⟩
  case imgEmitCancel i =>
    simp only [step]
    split
    · split
      · refine ⟨hPend, hHold, ?_, hRes, hLive⟩
        apply cleanImgW_set cid hImgW
        intro w h
        cases h
      · exact ⟨hPend, hHold, hImgW, hRes, hLive⟩
    · exact ⟨hPend, hHold, hImgW, hRes, hLive⟩
  case imgFail i =>
    simp only [step]
    split
    · refine ⟨hPend, hHold, ?_, hRes, hLive⟩
      apply cleanImgW_set cid hImgW
      intro w h
      cases h
    · exact ⟨hPend, hHold, hImgW, hRes, hLive⟩
  case imgDeliver =>
    simp only [step]
    split
    · exact ⟨hPend, hHold, hImgW, hRes, hLive⟩
    · exact ⟨hPend, hHold, hImgW, hRes, hLive⟩

theorem manifestFailInv_init (net : Net) (cid : MdId) (chapterList : List Chapter)
    (hc0 : ∃ c ∈ chapterList, c.Info.Identifier = cid) :
    ManifestFailInv net cid (initState chapterList) := by
  refine ⟨?_, ?_, ?_, ?_, Or.inl hc0⟩
  · intro j c pend hj
    simp [initState] at hj
  · intro p hp
    simp [initState] at hp
  · intro j w hj
    simp [initState] at hj
  · intro it hit
    simp [initState] at hit

theorem manifestFailInv_run (net : Net) (cid : MdId) (chapterList : List Chapter)
    (sched : List Choice)
    (HF : ∀ c2 : Chapter, c2.Info.Identifier = cid → ∀ l, net.fetchPaths c2 ≠ Except.ok l)
    (HP : ∀ c2 l, net.fetchPaths c2 = Except.ok l → ∀ p ∈ l, p.chapterID = c2.Info.Identifier)
    (hc0 : ∃ c ∈ chapterList, c.Info.Identifier = cid) :
    ManifestFailInv net cid (run net chapterList sched) := by
  have h : ∀ s, ManifestFailInv net cid s →
      ManifestFailInv net cid (sched.foldl (step net) s) := by
    induction sched with
    | nil => intro s hs; exact hs
    | cons c cs ih => intro s hs; exact ih _ (manifestFailInv_step net cid s c HF hs HP)
  exact h _ (manifestFailInv_init net cid chapterList hc0)

/-- C5 amended -/
theorem C5_amended_manifest_failure (net : Net) (cid : MdId) (chapterList : List Chapter)
    (sched : List Choice)
    (HF : ∀ c2 : Chapter, c2.Info.Identifier = cid → ∀ l, net.fetchPaths c2 ≠ Except.ok l)
    (HP : ∀ c2 l, net.fetchPaths c2 = Except.ok l → ∀ p ∈ l, p.chapterID = c2.Info.Identifier)
    (hc0 : ∃ c ∈ chapterList, c.Info.Identifier = cid) :
    (∀ it ∈ (run net chapterList sched).results, it.chapterID ≠ cid) ∧
    (∀ p, (run net chapterList sched).imgDisp = DispSt.holding p → p.chapterID ≠ cid) ∧
    (∀ (j : Nat) (w : ImgWorker), (run net chapterList sched).imgWorkers[j]? = some (some w) →
      (∀ p, w = ImgWorker.fetching p → p.chapterID ≠ cid) ∧
      (∀ p img, w = ImgWorker.emitting p img → p.chapterID ≠ cid)) ∧
    (finished (run net chapterList sched) →
      ∃ e, MangadexPagesReturn (run net chapterList sched) = Except.error e) := by
  have hinv := manifestFailInv_run net cid chapterList sched HF HP hc0
  have hbase := baseInv_run net chapterList sched
  refine ⟨hinv.cleanRes, hinv.cleanHold, hinv.cleanImgW, ?_⟩
  intro hfin
  obtain ⟨⟨hd1, hw0⟩, _, hcdel, _⟩ := hfin
  have hchne : (run net chapterList sched).chErr ≠ none := by
    rcases hinv.live with ⟨c3, hc3, hcid⟩ | ⟨c3, hc3, hcid⟩ | ⟨j, c3, hj, hcid⟩ | ⟨j, e, hj⟩ | h
    · rcases hbase.doneEmpty hd1 with hp | hne
      · rw [hp] at hc3
        cases hc3
      · exact hne
    · rw [hd1] at hc3
      cases hc3
    · have h0 := countActive_zero_getElem hw0 j _ hj
      cases h0
    · have h0 := countActive_zero_getElem hw0 j _ hj
      cases h0
    · exact h
  have houter := (hbase.delivCh hcdel).2 hchne
  obtain ⟨e, he⟩ := Option.ne_none_iff_exists'.mp houter
  exact ⟨e, by simp [MangadexPagesReturn, he]⟩

/-- C5 counterexample -/
theorem C5_counterexample :
    (∀ l, exNetFail.fetchPaths exC2 ≠ Except.ok l) ∧
    finished (run exNetFail [exC2] exSchedFail) ∧
    MangadexPagesReturn (run exNetFail [exC2] exSchedFail) = Except.error Err.canceled ∧
    ¬Err.canceled.mentionsChapter 2 := by
  refine ⟨?_, by decide, by decide, by simp [Err.mentionsChapter]⟩
  intro l hc
  simp [exNetFail] at hc

theorem C5_witness :
    (∀ it ∈ (run exNetFail [exC2] exSchedFailOrdered).results, it.chapterID ≠ 2) ∧
    (∃ e, MangadexPagesReturn (run exNetFail [exC2] exSchedFailOrdered) = Except.error e) := by
  have h := C5_amended_manifest_failure exNetFail 2 [exC2] exSchedFailOrdered
    (by intro c2 hb l hc; simp [exNetFail] at hc)
    (by intro c2 l hc; simp [exNetFail] at hc)
    ⟨exC2, by simp, by decide⟩
  exact ⟨h.1, h.2.2.2 (by decide)⟩

theorem provEq_withImage (p q : PathItem) (img : Option Bitmap) :
    provEq (p.WithImage img) q ↔ pathProvEq p q := Iff.rfl

theorem noEmit_set {ws : List (Option ImgWorker)} {p0 : PathItem}
    (h : ∀ (j : Nat) (p : PathItem) (img : Option Bitmap),
      ws[j]? = some (some (ImgWorker.emitting p img)) → ¬pathProvEq p p0)
    (i : Nat) {v : Option ImgWorker}
    (hv : ∀ (p : PathItem) (img : Option Bitmap),
      v = some (ImgWorker.emitting p img) → ¬pathProvEq p p0) :
    ∀ (j : Nat) (p : PathItem) (img : Option Bitmap),
      (ws.set i v)[j]? = some (some (ImgWorker.emitting p img)) → ¬pathProvEq p p0 := by
  intro j p img hj
  rw [List.getElem?_set] at hj
  split at hj
  · split at hj
    · injection hj with hj
      exact hv p img hj
    · cases hj
  · exact h j p img hj

theorem noEmit_append {ws : List (Option ImgWorker)} {p0 : PathItem}
    (h : ∀ (j : Nat) (p : PathItem) (img : Option Bitmap),
      ws[j]? = some (some (ImgWorker.emitting p img)) → ¬pathProvEq p p0)
    {v : Option ImgWorker}
    (hv : ∀ (p : PathItem) (img : Option Bitmap),
      v = some (ImgWorker.emitting p img) → ¬pathProvEq p p0) :
    ∀ (j : Nat) (p : PathItem) (img : Option Bitmap),
      (ws ++ [v])[j]? = some (some (ImgWorker.emitting p img)) → ¬pathProvEq p p0 := by
  intro j p img hj
  rw [List.getElem?_append] at hj
  split at hj
  · exact h j p img hj
  · rcases hk : j - ws.length with _ | k <;> rw [hk] at hj <;> simp at hj
    exact hv p img hj

theorem fetchFromOk_set {net : Net} {ws : List (Option ImgWorker)}
    (h : ∀ (j : Nat) (p : PathItem), ws[j]? = some (some (ImgWorker.fetching p)) →
      ∃ c l, net.fetchPaths c = Except.ok l ∧ p ∈ l)
    (i : Nat) {v : Option ImgWorker}
    (hv : ∀ (p : PathItem), v = some (ImgWorker.fetching p) →
      ∃ c l, net.fetchPaths c = Except.ok l ∧ p ∈ l) :
    ∀ (j : Nat) (p : PathItem), (ws.set i v)[j]? = some (some (ImgWorker.fetching p)) →
      ∃ c l, net.fetchPaths c = Except.ok l ∧ p ∈ l := by
  intro j p hj
  rw [List.getElem?_set] at hj
  split at hj
  · split at hj
    · injection hj with hj
      exact hv p hj
    · cases hj
  · exact h j p hj

theorem fetchFromOk_append {net : Net} {ws : List (Option ImgWorker)}
    (h : ∀ (j : Nat) (p : PathItem), ws[j]? = some (some (ImgWorker.fetching p)) →
      ∃ c l, net.fetchPaths c = Except.ok l ∧ p ∈ l)
    {v : Option ImgWorker}
    (hv : ∀ (p : PathItem), v = some (ImgWorker.fetching p) →
      ∃ c l, net.fetchPaths c = Except.ok l ∧ p ∈ l) :
    ∀ (j : Nat) (p : PathItem), (ws ++ [v])[j]? = some (some (ImgWorker.fetching p)) →
      ∃ c l, net.fetchPaths c = Except.ok l ∧ p ∈ l := by
  intro j p hj
  rw [List.getElem?_append] at hj
  split at hj
  · exact h j p hj
  · rcases hk : j - ws.length with _ | k <;> rw [hk] at hj <;> simp at hj
    exact hv p hj

theorem pendFromOk_set {net : Net} {ws : List (Option ChWorker)}
    (h : ∀ (j : Nat) (c : Chapter) (pend : List PathItem),
      ws[j]? = some (some (ChWorker.emitting c pend)) →
      ∃ l, net.fetchPaths c = Except.ok l ∧ pend ⊆ l)
    (i : Nat) {v : Option ChWorker}
    (hv : ∀ (c : Chapter) (pend : List PathItem), v = some (ChWorker.emitting c pend) →
      ∃ l, net.fetchPaths c = Except.ok l ∧ pend ⊆ l) :
    ∀ (j : Nat) (c : Chapter) (pend : List PathItem),
      (ws.set i v)[j]? = some (some (ChWorker.emitting c pend)) →
      ∃ l, net.fetchPaths c = Except.ok l ∧ pend ⊆ l := by
  intro j c pend hj
  rw [List.getElem?_set] at hj
  split at hj
  · split at hj
    · injection hj with hj
      exact hv c pend hj
    · cases hj
  · exact h j c pend hj

theorem pendFromOk_append {net : Net} {ws : List (Option ChWorker)}
    (h : ∀ (j : Nat) (c : Chapter) (pend : List PathItem),
      ws[j]? = some (some (ChWorker.emitting c pend)) →
      ∃ l, net.fetchPaths c = Except.ok l ∧ pend ⊆ l)
    {v : Option ChWorker}
    (hv : ∀ (c : Chapter) (pend : List PathItem), v = some (ChWorker.emitting c pend) →
      ∃ l, net.fetchPaths c = Except.ok l ∧ pend ⊆ l) :
    ∀ (j : Nat) (c : Chapter) (pend : List PathItem),
      (ws ++ [v])[j]? = some (some (ChWorker.emitting c pend)) →
      ∃ l, net.fetchPaths c = Except.ok l ∧ pend ⊆ l := by
  intro j c pend hj
  rw [List.getElem?_append] at hj
  split at hj
  · exact h j c pend hj
  · rcases hk : j - ws.length with _ | k <;> rw [hk] at hj <;> simp at hj
    exact hv c pend hj

theorem livePage_imgSet {p0 : PathItem} {c0 : Chapter} {s : PipeState} (i : Nat)
    {u : Option ImgWorker} (hu : s.imgWorkers[i]? = some u)
    (hu2 : u ≠ some (ImgWorker.fetching p0))
    (v : Option ImgWorker)
    (hLive : c0 ∈ s.chaptersPending ∨ s.chDisp = DispSt.holding c0 ∨
      (∃ (j : Nat), s.chWorkers[j]? = some (some (ChWorker.fetching c0))) ∨
      (∃ (j : Nat), ∃ c pend, s.chWorkers[j]? = some (some (ChWorker.emitting c pend))
        ∧ p0 ∈ pend) ∨
      s.imgDisp = DispSt.holding p0 ∨
      (∃ (j : Nat), s.imgWorkers[j]? = some (some (ImgWorker.fetching p0)))) :
    c0 ∈ s.chaptersPending ∨ s.chDisp = DispSt.holding c0 ∨
      (∃ (j : Nat), s.chWorkers[j]? = some (some (ChWorker.fetching c0))) ∨
      (∃ (j : Nat), ∃ c pend, s.chWorkers[j]? = some (some (ChWorker.emitting c pend))
        ∧ p0 ∈ pend) ∨
      s.imgDisp = DispSt.holding p0 ∨
      (∃ (j : Nat), (s.imgWorkers.set i v)[j]? = some (some (ImgWorker.fetching p0))) := by
  rcases hLive with g1 | g2 | g3 | g4 | g5 | ⟨j, hj⟩
  · exact Or.inl g1
  · exact Or.inr (Or.inl g2)
  · exact Or.inr (Or.inr (Or.inl g3))
  · exact Or.inr (Or.inr (Or.inr (Or.inl g4)))
  · exact Or.inr (Or.inr (Or.inr (Or.inr (Or.inl g5))))
  · have hij : i ≠ j := by
      rintro rfl
      rw [hu] at hj
      injection hj with hj
      exact hu2 hj
    refine Or.inr (Or.inr (Or.inr (Or.inr (Or.inr ⟨j, ?_⟩))))
    rw [List.getElem?_set_ne hij]
    exact hj

theorem pageFailInv_step (net : Net) (p0 : PathItem) (c0 : Chapter) (l0 : List PathItem)
    (s : PipeState) (c : Choice)
    (HFI : ∀ img, net.fetchImage p0 ≠ Except.ok img)
    (HU : ∀ c2 l, net.fetchPaths c2 = Except.ok l → ∀ p ∈ l, pathProvEq p p0 → p = p0)
    (HC0 : net.fetchPaths c0 = Except.ok l0) (Hp0 : p0 ∈ l0)
    (inv : PageFailInv net p0 c0 s) :
    PageFailInv net p0 c0 (step net s c) := by
  obtain ⟨hNE, hRes, hPend, hHold, hFet, hLive⟩ := inv
  cases c
  case chDispCancel =>
    simp only [step]
    split
    · rename_i hg
      refine ⟨hNE, hRes, hPend, hHold, hFet, ?_⟩
      intro hf2
      have hf3 : s.cancelFlag = false := hf2
      rw [hf3] at hg
      exact Bool.noConfusion hg.2
    · exact ⟨hNE, hRes, hPend, hHold, hFet, hLive⟩
  case chDispRecv =>
    simp only [step]
    split
    · rename_i c2 rest hd hp
      refine ⟨hNE, hRes, hPend, hHold, hFet, ?_⟩
      intro hf2
      rcases hLive hf2 with h | h | htl
      · rw [hp] at h
        rcases List.mem_cons.mp h with rfl | h
        · exact Or.inr (Or.inl rfl)
        · exact Or.inl h
      · rw [hd] at h
        cases h
      · exact Or.inr (Or.inr htl)
    · rename_i hd hp
      refine ⟨hNE, hRes, hPend, hHold, hFet, ?_⟩
      intro hf2
      rcases hLive hf2 with h | h | htl
      · rw [hp] at h
        cases h
      · rw [hd] at h
        cases h
      · exact Or.inr (Or.inr htl)
    · exact ⟨hNE, hRes, hPend, hHold, hFet, hLive⟩
  case chSpawn =>
    simp only [step]
    split
    · rename_i c2 hd
      split
      · refine ⟨hNE, hRes,
          pendFromOk_append hPend
            (by intro c3 pend h; injection h with h; exact ChWorker.noConfusion h),
          hHold, hFet, ?_⟩
        intro hf2
        rcases hLive hf2 with h | h | ⟨j, hj⟩ | ⟨j, c3, pend, hj, hp0⟩ | h | h
        · exact Or.inl h
        · rw [hd] at h
          injection h with h
          subst h
          refine Or.inr (Or.inr (Or.inl ⟨s.chWorkers.length, ?_⟩))
          exact List.getElem?_concat_length _ _
        · exact Or.inr (Or.inr (Or.inl ⟨j, getElemQ_append_left hj _⟩))
        · exact Or.inr (Or.inr (Or.inr (Or.inl ⟨j, c3, pend, getElemQ_append_left hj _, hp0⟩)))
        · exact Or.inr (Or.inr (Or.inr (Or.inr (Or.inl h))))
        · exact Or.inr (Or.inr (Or.inr (Or.inr (Or.inr h))))
      · exact ⟨hNE, hRes, hPend, hHold, hFet, hLive⟩
    · exact ⟨hNE, hRes, hPend, hHold, hFet, hLive⟩
  case chFetch i =>
    simp only [step]
    split
    · rename_i c2 heq
      split
      · rename_i hflag
        refine ⟨hNE, hRes,
          pendFromOk_set hPend i
            (by intro c3 pend h; injection h with h; exact ChWorker.noConfusion h),
          hHold, hFet, ?_⟩
        intro hf2
        have hf3 : s.cancelFlag = false := hf2
        rw [hf3] at hflag
        exact Bool.noConfusion hflag
      · split
        · refine ⟨hNE, hRes,
            pendFromOk_set hPend i
              (by intro c3 pend h; injection h with h; exact ChWorker.noConfusion h),
            hHold, hFet, ?_⟩
          intro hf2
          exact Bool.noConfusion (show true = false from hf2)
        · rename_i paths hok
          refine ⟨hNE, hRes, ?_, hHold, hFet, ?_⟩
          · apply pendFromOk_set hPend i
            intro c3 pend h
            split at h
            · cases h
            · injection h with h
              injection h with h1 h2
              subst h1
              subst h2
              exact ⟨paths, hok, List.Subset.refl _⟩
          · intro hf2
            rcases hLive hf2 with h | h | ⟨j, hj⟩ | ⟨j, c3, pend, hj, hp0⟩ | h | h
            · exact Or.inl h
            · exact Or.inr (Or.inl h)
            · by_cases hij : i = j
              · subst hij
                rw [heq] at hj
                injection hj with hj
                injection hj with hj
                injection hj with hj
                subst hj
                rw [HC0] at hok
                injection hok with hok
                subst hok
                have hi : i < s.chWorkers.length := (List.getElem?_eq_some.mp heq).1
                have hemp : l0.isEmpty = false := by
                  cases l0 with
                  | nil => cases Hp0
                  | cons a t => rfl
                refine Or.inr (Or.inr (Or.inr (Or.inl ⟨i, c2, l0, ?_, Hp0⟩)))
                simp [List.getElem?_set, hi, hemp]
              · refine Or.inr (Or.inr (Or.inl ⟨j, ?_⟩))
                rw [List.getElem?_set_ne hij]
                exact hj
            · have hij : i ≠ j := by
                rintro rfl
                rw [heq] at hj
                injection hj with hj
                injection hj with hj
                exact ChWorker.noConfusion hj
              refine Or.inr (Or.inr (Or.inr (Or.inl ⟨j, c3, pend, ?_, hp0⟩)))
              rw [List.getElem?_set_ne hij]
              exact hj
            · exact Or.inr (Or.inr (Or.inr (Or.inr (Or.inl h))))
            · exact Or.inr (Or.inr (Or.inr (Or.inr (Or.inr h))))
    · exact ⟨hNE, hRes, hPend, hHold, hFet, hLive⟩
  case chEmit i =>
    simp only [step]
    split
    · rename_i c2 p rest heq hd
      obtain ⟨l, hok, hsub⟩ := hPend i c2 (p :: rest) heq
      refine ⟨hNE, hRes, ?_, ?_, hFet, ?_⟩
      · apply pendFromOk_set hPend i
        intro c3 pend h
        split at h
        · cases h
        · injection h with h
          injection h with h1 h2
          subst h1
          subst h2
          refine ⟨l, hok, ?_⟩
          intro q hq
          exact hsub (List.mem_cons_of_mem p hq)
      · intro q hq
        have hq2 : DispSt.holding p = DispSt.holding q := hq
        injection hq2 with hq2
        subst hq2
        exact ⟨c2, l, hok, hsub (List.mem_cons_self p rest)⟩
      · intro hf2
        rcases hLive hf2 with h | h | ⟨j, hj⟩ | ⟨j, c3, pend, hj, hp0⟩ | h | h
        · exact Or.inl h
        · exact Or.inr (Or.inl h)
        · have hij : i ≠ j := by
            rintro rfl
            rw [heq] at hj
            injection hj with hj
            injection hj with hj
            exact ChWorker.noConfusion hj
          refine Or.inr (Or.inr (Or.inl ⟨j, ?_⟩))
          rw [List.getElem?_set_ne hij]
          exact hj
        · by_cases hij : i = j
          · subst hij
            rw [heq] at hj
            injection hj with hj
            injection hj with hj
            injection hj with hj1 hj2
            subst hj1
            subst hj2
            rcases List.mem_cons.mp hp0 with rfl | hp0r
            · exact Or.inr (Or.inr (Or.inr (Or.inr (Or.inl rfl))))
            · have hemp : rest.isEmpty = false := by
                cases rest with
                | nil => cases hp0r
                | cons a t => rfl
              have hi : i < s.chWorkers.length := (List.getElem?_eq_some.mp heq).1
              refine Or.inr (Or.inr (Or.inr (Or.inl ⟨i, c2, rest, ?_, hp0r⟩)))
              simp [List.getElem?_set, hi, hemp]
          · refine Or.inr (Or.inr (Or.inr (Or.inl ⟨j, c3, pend, ?_, hp0⟩)))
            rw [List.getElem?_set_ne hij]
            exact hj
        · rw [hd] at h
          cases h
        · exact Or.inr (Or.inr (Or.inr (Or.inr (Or.inr h))))
    · exact ⟨hNE, hRes, hPend, hHold, hFet, hLive⟩
  case chEmitCancel i =>
    simp only [step]
    split
    · split
      · rename_i heq hflag
        refine ⟨hNE, hRes, pendFromOk_set hPend i (by intro c3 pend h; cases h),
          hHold, hFet, ?_⟩
        intro hf2
        have hf3 : s.cancelFlag = false := hf2
        rw [hf3] at hflag
        exact Bool.noConfusion hflag
      · exact ⟨hNE, hRes, hPend, hHold, hFet, hLive⟩
    · exact ⟨hNE, hRes, hPend, hHold, hFet, hLive⟩
  case chFail i =>
    simp only [step]
    split
    · rename_i e heq
      refine ⟨hNE, hRes, pendFromOk_set hPend i (by intro c3 pend h; cases h),
        hHold, hFet, ?_⟩
      intro hf2
      rcases hLive hf2 with h | h | ⟨j, hj⟩ | ⟨j, c3, pend, hj, hp0⟩ | h | h
      · exact Or.inl h
      · exact Or.inr (Or.inl h)
      · have hij : i ≠ j := by
          rintro rfl
          rw [heq] at hj
          injection hj with hj
          injection hj with hj
          exact ChWorker.noConfusion hj
        refine Or.inr (Or.inr (Or.inl ⟨j, ?_⟩))
        rw [List.getElem?_set_ne hij]
        exact hj
      · have hij : i ≠ j := by
          rintro rfl
          rw [heq] at hj
          injection hj with hj
          injection hj with hj
          exact ChWorker.noConfusion hj
        refine Or.inr (Or.inr (Or.inr (Or.inl ⟨j, c3, pend, ?_, hp0⟩)))
        rw [List.getElem?_set_ne hij]
        exact hj
      · exact Or.inr (Or.inr (Or.inr (Or.inr (Or.inl h))))
      · exact Or.inr (Or.inr (Or.inr (Or.inr (Or.inr h))))
    · exact ⟨hNE, hRes, hPend, hHold, hFet, hLive⟩
  case chDeliver =>
    simp only [step]
    split
    · exact ⟨hNE, hRes, hPend, hHold, hFet, hLive⟩
    · exact ⟨hNE, hRes, hPend, hHold, hFet, hLive⟩
  case imgDispCancel =>
    simp only [step]
    split
    · rename_i hg
      refine ⟨hNE, hRes, hPend, (by intro q hq; cases hq), hFet, ?_⟩
      intro hf2
      have hf3 : s.cancelFlag = false := hf2
      rw [hf3] at hg
      exact Bool.noConfusion hg.2
    · exact ⟨hNE, hRes, hPend, hHold, hFet, hLive⟩
  case imgDispRecv =>
    simp only [step]
    split
    · rename_i hg
      refine ⟨hNE, hRes, hPend, (by intro q hq; cases hq), hFet, ?_⟩
      intro hf2
      rcases hLive hf2 with h | h | h | h | h | h
      · exact Or.inl h
      · exact Or.inr (Or.inl h)
      · exact Or.inr (Or.inr (Or.inl h))
      · exact Or.inr (Or.inr (Or.inr (Or.inl h)))
      · rw [hg.1] at h
        cases h
      · exact Or.inr (Or.inr (Or.inr (Or.inr (Or.inr h))))
    · exact ⟨hNE, hRes, hPend, hHold, hFet, hLive⟩
  case imgSpawn =>
    simp only [step]
    split
    · rename_i p2 hd
      split
      · refine ⟨noEmit_append hNE
            (by intro q img h; injection h with h; exact ImgWorker.noConfusion h),
          hRes, hPend, (by intro q hq; cases hq),
          fetchFromOk_append hFet ?_, ?_⟩
        · intro q hq
          injection hq with hq
          injection hq with hq
          subst hq
          exact hHold p2 hd
        · intro hf2
          rcases hLive hf2 with h | h | h | h | h | ⟨j, hj⟩
          · exact Or.inl h
          · exact Or.inr (Or.inl h)
          · exact Or.inr (Or.inr (Or.inl h))
          · exact Or.inr (Or.inr (Or.inr (Or.inl h)))
          · rw [hd] at h
            injection h with h
            subst h
            refine Or.inr (Or.inr (Or.inr (Or.inr (Or.inr ⟨s.imgWorkers.length, ?_⟩))))
            exact List.getElem?_concat_length _ _
          · exact Or.inr (Or.inr (Or.inr (Or.inr (Or.inr ⟨j, getElemQ_append_left hj _⟩))))
      · exact ⟨hNE, hRes, hPend, hHold, hFet, hLive⟩
    · exact ⟨hNE, hRes, hPend, hHold, hFet, hLive⟩
  case imgFetch i =>
    simp only [step]
    split
    · rename_i p heq
      split
      · rename_i hflag
        refine ⟨noEmit_set hNE i (by intro q img h; injection h with h; exact ImgWorker.noConfusion h),
          hRes, hPend, hHold,
          fetchFromOk_set hFet i (by intro q h; injection h with h; exact ImgWorker.noConfusion h),
          ?_⟩
        intro hf2
        have hf3 : s.cancelFlag = false := hf2
        rw [hf3] at hflag
        exact Bool.noConfusion hflag
      · split
        · refine ⟨noEmit_set hNE i (by intro q img h; injection h with h; exact ImgWorker.noConfusion h),
            hRes, hPend, hHold,
            fetchFromOk_set hFet i (by intro q h; injection h with h; exact ImgWorker.noConfusion h),
            ?_⟩
          intro hf2
          exact Bool.noConfusion (show true = false from hf2)
        · rename_i img hok
          have hne : ¬pathProvEq p p0 := by
            intro hpe
            obtain ⟨c2, l, hcl, hpl⟩ := hFet i p heq
            have hpp := HU c2 l hcl p hpl hpe
            rw [hpp] at hok
            exact HFI img hok
          refine ⟨?_, hRes, hPend, hHold,
            fetchFromOk_set hFet i (by intro q h; injection h with h; exact ImgWorker.noConfusion h),
            ?_⟩
          · apply noEmit_set hNE i
            intro q img2 h
            injection h with h
            injection h with h1 h2
            subst h1
            exact hne
          · intro hf2
            refine livePage_imgSet i heq ?_ _ (hLive hf2)
            intro hq
            injection hq with hq
            injection hq with hq
            exact absurd (by rw [hq]; exact ⟨rfl, rfl, rfl⟩) hne
    · exact ⟨hNE, hRes, hPend, hHold, hFet, hLive⟩
  case imgEmit i =>
    simp only [step]
    split
    · rename_i p img heq
      have hne : ¬pathProvEq p p0 := hNE i p img heq
      refine ⟨noEmit_set hNE i (by intro q img2 h; cases h), ?_, hPend, hHold,
        fetchFromOk_set hFet i (by intro q h; cases h), ?_⟩
      · intro it hit
        rcases List.mem_append.mp hit with h | h
        · exact hRes it h
        · simp at h
          subst h
          exact hne
      · intro hf2
        refine livePage_imgSet i heq ?_ _ (hLive hf2)
        intro hq
        injection hq with hq
        exact ImgWorker.noConfusion hq
    · exact ⟨hNE, hRes, hPend, hHold, hFet, hLive⟩
  case imgEmitCancel i =>
    simp only [step]
    split
    · split
      · rename_i heq hflag
        refine ⟨noEmit_set hNE i (by intro q img h; cases h), hRes, hPend, hHold,
          fetchFromOk_set hFet i (by intro q h; cases h), ?_⟩
        intro hf2
        have hf3 : s.cancelFlag = false := hf2
        rw [hf3] at hflag
        exact Bool.noConfusion hflag
      · exact ⟨hNE, hRes, hPend, hHold, hFet, hLive⟩
    · exact ⟨hNE, hRes, hPend, hHold, hFet, hLive⟩
  case imgFail i =>
    simp only [step]
    split
    · rename_i e heq
      refine ⟨noEmit_set hNE i (by intro q img h; cases h), hRes, hPend, hHold,
        fetchFromOk_set hFet i (by intro q h; cases h), ?_⟩
      intro hf2
      refine livePage_imgSet i heq ?_ _ (hLive hf2)
      intro hq
      injection hq with hq
      exact ImgWorker.noConfusion hq
    · exact ⟨hNE, hRes, hPend, hHold, hFet, hLive⟩
  case imgDeliver =>
    simp only [step]
    split
    · exact ⟨hNE, hRes, hPend, hHold, hFet, hLive⟩
    · exact ⟨hNE, hRes, hPend, hHold, hFet, hLive⟩

theorem pageFailInv_init (net : Net) (p0 : PathItem) (c0 : Chapter)
    (chapterList : List Chapter) (hc0 : c0 ∈ chapterList) :
    PageFailInv net p0 c0 (initState chapterList) := by
  refine ⟨?_, ?_, ?_, ?_, ?_, ?_⟩
  · intro j p img hj
    simp [initState] at hj
  · intro it hit
    simp [initState] at hit
  · intro j c pend hj
    simp [initState] at hj
  · intro p hp
    simp [initState] at hp
  · intro j p hj
    simp [initState] at hj
  · intro _
    exact Or.inl hc0

theorem pageFailInv_run (net : Net) (p0 : PathItem) (c0 : Chapter) (l0 : List PathItem)
    (chapterList : List Chapter) (sched : List Choice)
    (HFI : ∀ img, net.fetchImage p0 ≠ Except.ok img)
    (HU : ∀ c2 l, net.fetchPaths c2 = Except.ok l → ∀ p ∈ l, pathProvEq p p0 → p = p0)
    (HC0 : net.fetchPaths c0 = Except.ok l0) (Hp0 : p0 ∈ l0)
    (hc0 : c0 ∈ chapterList) :
    PageFailInv net p0 c0 (run net chapterList sched) := by
  have h : ∀ s, PageFailInv net p0 c0 s →
      PageFailInv net p0 c0 (sched.foldl (step net) s) := by
    induction sched with
    | nil => intro s hs; exact hs
    | cons c cs ih =>
      intro s hs
      exact ih _ (pageFailInv_step net p0 c0 l0 s c HFI HU HC0 Hp0 hs)
  exact h _ (pageFailInv_init net p0 c0 chapterList hc0)

/-- C6: a page whose request completes with a non-200 status is a fatal error
for that page: `getImage` surfaces the wrapped status error after exactly one
attempt (no retry at this layer); the `imgFetch` step that completes the
failing fetch records the error wrapped with the page's chapter identifier and
image identifier and triggers cancellation; on every schedule no image with
that page's provenance is ever delivered; and every finished run ends with
cancellation fired and `MangadexPages` returning an error. -/
theorem C6_status_error_fatal (net : Net) (p0 : PathItem) (c0 : Chapter) (l0 : List PathItem)
    (chapterList : List Chapter) (sched : List Choice)
    (fetch : Nat → Attempt) (code : Nat) (img0 : Option Bitmap) (er : Option Nat)
    (e0 : GetImageErr)
    (hresp : fetch 0 = Attempt.response code img0 er) (hcode : code ≠ 200)
    (HFI : net.fetchImage p0 = Except.error e0)
    (HU : ∀ c2 l, net.fetchPaths c2 = Except.ok l → ∀ p ∈ l, pathProvEq p p0 → p = p0)
    (hc0 : c0 ∈ chapterList) (HC0 : net.fetchPaths c0 = Except.ok l0) (Hp0 : p0 ∈ l0) :
    (getImage fetch 0 = Except.error (GetImageErr.status code)
      ∧ getImageAttempts fetch 0 = 1) ∧
    (∀ (s : PipeState) (i : Nat), s.imgWorkers[i]? = some (some (ImgWorker.fetching p0)) →
      s.cancelFlag = false →
      (step net s (Choice.imgFetch i)).cancelFlag = true ∧
      (step net s (Choice.imgFetch i)).imgWorkers[i]?
        = some (some (ImgWorker.failed (Err.image p0.chapterID p0.imageID e0)))) ∧
    (∀ it ∈ (run net chapterList sched).results, ¬provEq it p0) ∧
    (finished (run net chapterList sched) →
      (run net chapterList sched).cancelFlag = true ∧
      ∃ e, MangadexPagesReturn (run net chapterList sched) = Except.error e) := by
  have HFI2 : ∀ img, net.fetchImage p0 ≠ Except.ok img := by
    intro img hok
    rw [HFI] at hok
    cases hok
  have hinv := pageFailInv_run net p0 c0 l0 chapterList sched HFI2 HU HC0 Hp0 hc0
  have hbase := baseInv_run net chapterList sched
  refine ⟨getImage_status fetch code img0 er hresp hcode, ?_, hinv.cleanRes, ?_⟩
  · intro s i hw hflag
    have hi : i < s.imgWorkers.length := (List.getElem?_eq_some.mp hw).1
    constructor
    · simp only [step]
      rw [hw]
      simp [hflag, HFI]
    · simp only [step]
      rw [hw]
      simp [hflag, HFI, List.getElem?_set, hi]
  · intro hfin
    obtain ⟨⟨hd1, hw0⟩, ⟨hd2, hw2⟩, hcdel, hidel⟩ := hfin
    have hflag : (run net chapterList sched).cancelFlag = true := by
      cases hfv : (run net chapterList sched).cancelFlag
      · exfalso
        rcases hinv.live hfv with h | h | ⟨j, hj⟩ | ⟨j, c3, pend, hj, _⟩ | h | ⟨j, hj⟩
        · rcases hbase.doneEmpty hd1 with hp | hne2
          · rw [hp] at h
            cases h
          · exact hne2 (hbase.cleanChErr hfv)
        · rw [hd1] at h
          cases h
        · have h0 := countActive_zero_getElem hw0 j _ hj
          cases h0
        · have h0 := countActive_zero_getElem hw0 j _ hj
          cases h0
        · rw [hd2] at h
          cases h
        · have h0 := countActive_zero_getElem hw2 j _ hj
          cases h0
      · rfl
    refine ⟨hflag, ?_⟩
    have herr : (run net chapterList sched).chErr ≠ none ∨
        (run net chapterList sched).imgErr ≠ none := by
      rcases hbase.flagErr hflag with ⟨j, e, hj⟩ | ⟨j, e, hj⟩ | h | h
      · have h0 := countActive_zero_getElem hw0 j _ hj
        cases h0
      · have h0 := countActive_zero_getElem hw2 j _ hj
        cases h0
      · exact Or.inl h
      · exact Or.inr h
    have houter : (run net chapterList sched).outerErr ≠ none := by
      rcases herr with h | h
      · exact (hbase.delivCh hcdel).2 h
      · exact (hbase.delivImg hidel).2 h
    obtain ⟨e, he⟩ := Option.ne_none_iff_exists'.mp houter
    exact ⟨e, by simp [MangadexPagesReturn, he]⟩

set_option maxRecDepth 200000

theorem C6_witness :
    (∀ it ∈ (run exNet404 [exC1] exSched404).results, ¬provEq it ⟨"v1", 2, 5, 8⟩) ∧
    (run exNet404 [exC1] exSched404).cancelFlag = true ∧
    ∃ e, MangadexPagesReturn (run exNet404 [exC1] exSched404) = Except.error e := by
  have h := C6_status_error_fatal exNet404 ⟨"v1", 2, 5, 8⟩ exC1
    [⟨"v1", 2, 5, 8⟩, ⟨"v2", 3, 5, 8⟩] [exC1] exSched404
    (fun _ => Attempt.response 404 none none) 404 none none
    (GetImageErr.status 404) rfl (by decide)
    (by decide)
    (by
      intro c2 l hl p hp hpe
      have hl2 : (Except.ok [(⟨"v1", 2, 5, 8⟩ : PathItem), ⟨"v2", 3, 5, 8⟩]
          : Except Nat (List PathItem)) = Except.ok l := hl
      injection hl2 with hl2
      subst hl2
      cases hp with
      | head => rfl
      | tail _ hp2 =>
        cases hp2 with
        | head => exact absurd hpe (by decide)
        | tail _ hp3 => cases hp3)
    (by decide) rfl (by decide)
  obtain ⟨h1, h2, h3, h4⟩ := h
  obtain ⟨h5, h6⟩ := h4 (by decide)
  exact ⟨h3, h5, h6⟩

end Kojirou
